import Mathlib

/-!
# basket.js: the cache and loader core of `lib/basket.js`

A shallow embedding of the functions of `lib/basket.js` and theorems about them.

Conventions of the embedding.

* A JavaScript object that the library handles (a request descriptor, which
  `wrapStoreData` turns in place into the cache entry) is a `Resource`; an absent
  property is `none`.  Flags that the code only tests for truthiness are `Bool`.
* Time stamps in milliseconds and hours are the numbers with an integer value (`Int`).
  Sums and products of `wrapStoreData` are rounded as the arithmetic on doubles rounds
  them (`roundDouble`).  The argument of `setDefaultExpiration`, which the code passes
  through `parseInt`, is a `JSNumber`, given by the way JavaScript prints it.
* `localStorage` is an ordered list of key/value pairs.  The text stored under a key is
  represented by what `JSON.parse` makes of it (`Stored`), so `JSON.stringify` of a
  resource is `Stored.json (Json.obj r)`.
* An exception is an `Except.error`; a recursion that the code may run for ever takes
  fuel and answers `none` when the fuel runs out.
* A promise is described by the data that decides its outcome (`Pending`), and settled
  by `settle` against the network.
-/

namespace Basket

/-! ## Values -/

/-- The objects of the library: a request descriptor and, after `wrapStoreData`, the
cache entry (the same JavaScript object).  The numbers `expire` and `stamp` are those with
an integer value; fractions, `NaN` and the infinities are outside the embedding. -/
structure Resource where
  url : Option String
  key : Option String
  type : Option String
  live : Bool
  unique : Option String
  once : Bool
  expire : Option Int
  skipCache : Bool
  execute : Option Bool
  data : Option String
  originalType : Option String
  stamp : Option Int
deriving DecidableEq

/-- A value that `JSON.parse` can return.  Arrays do not occur in what the library stores
and are left out. -/
inductive Json where
  | null
  | bool (b : Bool)
  | num (n : Int)
  | str (s : String)
  | obj (r : Resource)
deriving DecidableEq

/-- A thrown exception, identified by its `name`. -/
structure JSError where
  name : String
deriving DecidableEq

deriving instance DecidableEq for Except

/-- Exception of a property read on `null` or `undefined`, of a property write on a
primitive in strict mode, and of a call of something that is not a function. -/
def typeError : JSError := ⟨"TypeError"⟩

/-- Exception of `JSON.parse` on text that is not JSON. -/
def syntaxError : JSError := ⟨"SyntaxError"⟩

/-- Truthiness of a string-valued property: absent and `""` are falsy. -/
def truthyStr : Option String → Bool
  | none => false
  | some s => s != ""

/-- Truthiness of a parsed value. -/
def Json.truthy : Json → Bool
  | .null => false
  | .bool b => b
  | .num n => n != 0
  | .str s => s != ""
  | .obj _ => true

/-- String conversion of a string-valued property in a concatenation `'…' + x`. -/
def jsStr : Option String → String
  | none => "undefined"
  | some s => s

/-! ## Strings -/

/-- Search of `pat` in a list of characters from offset `k`: the index of the first
occurrence, or `-1`. -/
def indexOfChars (pat : List Char) : List Char → Nat → Int
  | [], k => if pat.isPrefixOf [] then (k : Int) else -1
  | c :: cs, k => if pat.isPrefixOf (c :: cs) then (k : Int) else indexOfChars pat cs (k + 1)

/-- The method `String.prototype.indexOf`. -/
def indexOf (s pat : String) : Int := indexOfChars pat.data s.data 0

/-- The method `String.prototype.toUpperCase` (on ASCII letters). -/
def toUpperCase (s : String) : String := ⟨s.data.map Char.toUpper⟩

/-! ## The store -/

/-- The text stored under a key of `localStorage`, up to `JSON.parse`. -/
inductive Stored where
  | unparsable
  | json (v : Json)
deriving DecidableEq

/-- The contents of `localStorage`, in enumeration order. -/
abbrev Storage := List (String × Stored)

/-- The behaviour of the store on a write: given the contents, the key and the value of
a `setItem`, the exception that the store raises, or `none` when it accepts the write. -/
abbrev Capacity := Storage → String → Stored → Option JSError

/-- The call `localStorage.getItem(k)`; `none` is `null`. -/
def getItem (s : Storage) (k : String) : Option Stored :=
  match s with
  | [] => none
  | (k1, v) :: rest => if k1 = k then some v else getItem rest k

/-- The call `localStorage.removeItem(k)`. -/
def removeItem (s : Storage) (k : String) : Storage :=
  s.filter (fun kv => kv.1 ≠ k)

/-- The contents after an accepted write: the value replaces the one under the same key,
or is added at the end. -/
def writeItem (s : Storage) (k : String) (v : Stored) : Storage :=
  match s with
  | [] => [(k, v)]
  | (k1, v1) :: rest => if k1 = k then (k, v) :: rest else (k1, v1) :: writeItem rest k v

/-- The call `localStorage.setItem(k, v)`. -/
def setItem (cap : Capacity) (s : Storage) (k : String) (v : Stored) : Except JSError Storage :=
  match cap s k v with
  | some e => .error e
  | none => .ok (writeItem s k v)

/-- The call `JSON.parse` on a stored text. -/
def jsonParse : Stored → Except JSError Json
  | .unparsable => .error syntaxError
  | .json v => .ok v

/-- The call `JSON.stringify` on a resource. -/
def jsonStringify (r : Resource) : Stored := .json (.obj r)

/-- The constant `storagePrefix`. -/
def storagePrefix : String := "basket-"

/-- The method `basket.remove` (its effect on the store; it returns the basket). -/
def remove (s : Storage) (key : Option String) : Storage :=
  removeItem s (storagePrefix ++ jsStr key)

/-- The method `basket.get`: the parsed item, and `false` for a missing, empty or
unparsable one. -/
def get (s : Storage) (key : String) : Json :=
  match getItem s (storagePrefix ++ key) with
  | none => .bool false
  | some .unparsable => .bool false
  | some (.json v) => v

/-! ## Eviction (`addLocalStorage`) -/

/-- The loop of `addLocalStorage` over `localStorage`: the parsed values of the items
whose key starts with the storage prefix, in enumeration order. -/
def scanEntries : Storage → Except JSError (List Json)
  | [] => .ok []
  | (item, v) :: rest =>
    if indexOf item storagePrefix = 0 then
      match jsonParse v with
      | .error e => .error e
      | .ok p =>
        match scanEntries rest with
        | .error e => .error e
        | .ok ps => .ok (p :: ps)
    else scanEntries rest

/-- The property read `x.stamp` on a parsed value that is not `null`; `none` is
`undefined`. -/
def Json.stamp : Json → Option Int
  | .obj r => r.stamp
  | _ => none

/-- The property read `x.key`, which throws on `null`. -/
def Json.key : Json → Except JSError (Option String)
  | .null => .error typeError
  | .obj r => .ok r.key
  | _ => .ok none

/-- The comparator `a.stamp - b.stamp`; `none` is `NaN`. -/
def compareStamp (a b : Json) : Option Int :=
  match a.stamp, b.stamp with
  | some x, some y => some (x - y)
  | _, _ => none

/-- The order that the comparator induces in a sort: `a` is not placed after `b` unless
the comparator is positive. -/
def stampLE (a b : Json) : Prop :=
  match compareStamp a b with
  | some d => d ≤ 0
  | none => True

instance : DecidableRel stampLE := fun a b => by
  unfold stampLE
  cases compareStamp a b <;> infer_instance

/-- The call `tempScripts.sort(function (a, b) { return a.stamp - b.stamp; })`: a stable
sort; with two or more elements the comparator reads `.stamp` of each element, which
throws on `null`. -/
def sortByStamp (xs : List Json) : Except JSError (List Json) :=
  if 2 ≤ xs.length ∧ xs.any (fun x => x = Json.null) then .error typeError
  else .ok (xs.insertionSort stampLE)

/-- The function `addLocalStorage`.  The result is `none` when the fuel runs out, and
otherwise the outcome (`true`, `false` for the `undefined` of a bare `return`, or the
exception that escapes) with the contents of the store. -/
def addLocalStorage (cap : Capacity) :
    Nat → Storage → String → Resource → Option (Except JSError Bool × Storage)
  | 0, _, _, _ => none
  | fuel + 1, s, key, storeObj =>
    match setItem cap s (storagePrefix ++ key) (jsonStringify storeObj) with
    | .ok s1 => some (.ok true, s1)
    | .error e =>
      if indexOf (toUpperCase e.name) "QUOTA" ≥ 0 then
        match scanEntries s with
        | .error err => some (.error err, s)
        | .ok tempScripts =>
          if tempScripts.length ≠ 0 then
            match sortByStamp tempScripts with
            | .error err => some (.error err, s)
            | .ok sorted =>
              match sorted with
              | [] => some (.error typeError, s)
              | first :: _ =>
                match first.key with
                | .error err => some (.error err, s)
                | .ok k => addLocalStorage cap fuel (remove s k) key storeObj
          else some (.ok false, s)
      else some (.ok false, s)

/-! ## Wrapping and saving a fetched resource -/

/-- The value that the promise of `getUrl` resolves with. -/
structure FetchResult where
  content : String
  type : Option String
deriving DecidableEq

/-- The network: what `getUrl(url)` settles with; `none` is a rejected promise. -/
abbrev Network := String → Option FetchResult

/-- Truthiness of a number-valued property: absent and `0` are falsy. -/
def truthyNum : Option Int → Bool
  | none => false
  | some n => n != 0

/-- An integer of magnitude below `2^53`; a double holds each of these exactly. -/
def Safe (i : Int) : Prop := i.natAbs < 2 ^ 53

instance (i : Int) : Decidable (Safe i) := by
  unfold Safe
  infer_instance

/-- The double nearest to an integer, ties going to the even significand of 53 bits.  An
integer beyond the largest finite double, which the arithmetic turns into an infinity, is
outside the embedding. -/
def roundDouble (i : Int) : Int :=
  if i.natAbs < 2 ^ 53 then i
  else
    let e := Nat.log2 i.natAbs - 52
    let q := i.natAbs / 2 ^ e
    let r := i.natAbs % 2 ^ e
    let up := decide (2 ^ e < 2 * r) || (decide (2 * r = 2 ^ e) && decide (q % 2 = 1))
    Int.sign i * (((if up then q + 1 else q) * 2 ^ e : Nat) : Int)

/-- The product `a * b` of two numbers with integer values. -/
def jsMul (a b : Int) : Int := roundDouble (a * b)

/-- The sum `a + b` of two numbers with integer values. -/
def jsAdd (a b : Int) : Int := roundDouble (a + b)

/-- The expression `obj.expire || defaultExpiration`: the hours before the entry
expires. -/
def hoursOf (defaultExpiration : Int) (obj : Resource) : Int :=
  if truthyNum obj.expire then obj.expire.getD 0 else defaultExpiration

/-- The function `wrapStoreData`, run at time `now` with the current value of
`defaultExpiration`.  The hours are a number with an integer value; the stamp of expiry is
`now + ( hours * 60 * 60 * 1000 )`, each product and the sum rounded. -/
def wrapStoreData (defaultExpiration now : Int) (obj : Resource) (data : FetchResult) :
    Resource :=
  { obj with
    data := some data.content
    originalType := data.type
    type := if truthyStr obj.type then obj.type else data.type
    skipCache := obj.skipCache || false
    stamp := some now
    expire := some (jsAdd now
      (jsMul (jsMul (jsMul (hoursOf defaultExpiration obj) 60) 60) 1000)) }

/-- How a promise settles: fulfilled with a value (`none` is `undefined`) or rejected. -/
inductive Outcome where
  | fulfilled (v : Option Json)
  | rejected (e : JSError)
deriving DecidableEq

/-- The function `saveUrl`, settled: the outcome of its promise and the contents of the
store afterwards.  `none` when `addLocalStorage` runs out of fuel. -/
def saveUrl (cap : Capacity) (net : Network) (defaultExpiration now : Int) (fuel : Nat)
    (s : Storage) (obj : Resource) : Option (Outcome × Storage) :=
  match net (jsStr obj.url) with
  | none => some (.rejected ⟨"Error"⟩, s)
  | some result =>
    let storeObj := wrapStoreData defaultExpiration now obj result
    if !storeObj.skipCache then
      match addLocalStorage cap fuel s (jsStr storeObj.key) storeObj with
      | none => none
      | some (.error e, s1) => some (.rejected e, s1)
      | some (.ok _, s1) => some (.fulfilled (some (.obj storeObj)), s1)
    else some (.fulfilled (some (.obj storeObj)), s)

/-! ## The validity check and `handleStackObject` -/

/-- The property read `x.expire` on a truthy parsed value. -/
def Json.expire : Json → Option Int
  | .obj r => r.expire
  | _ => none

/-- The property read `x.unique` on a truthy parsed value. -/
def Json.unique : Json → Option String
  | .obj r => r.unique
  | _ => none

/-- The hook `basket.isValidItem`: `none` is the initial `null`. -/
abbrev ValidItem := Option (Json → Resource → Bool)

/-- The function `isCacheValid` at time `now`.  Despite its name it answers whether the
resource has to be fetched: `handleStackObject` stores the result in `shouldFetch`. -/
def isCacheValid (isValidItem : ValidItem) (now : Int) (source : Json) (obj : Resource) : Bool :=
  !source.truthy ||
  (match source.expire with
   | some e => decide (e - now < 0)
   | none => false) ||
  decide (obj.unique ≠ source.unique) ||
  (match isValidItem with
   | none => false
   | some f => !f source obj)

/-- The promise that `handleStackObject` returns, by the data that decides its outcome:
`saveUrl(obj)`, `saveUrl(obj)` with the fall-back to `source` on rejection, or a promise
already resolved with `source`. -/
inductive Pending where
  | saved (obj : Resource)
  | savedOr (obj : Resource) (source : Json)
  | resolved (source : Json)
deriving DecidableEq

/-- The url that the fetch branch of `handleStackObject` requests. -/
def bustUrl (obj : Resource) : Resource :=
  if truthyStr obj.unique then
    { obj with url := some (jsStr obj.url ++
        (if indexOf (jsStr obj.url) "?" > 0 then "&" else "?") ++
        "basket-unique=" ++ jsStr obj.unique) }
  else obj

/-- The function `handleStackObject` at time `now`: `none` is the `undefined` of the
early return.  In the branch of the valid cache the writes `source.type = …` throw, in
strict mode, when `source` is not an object. -/
def handleStackObject (isValidItem : ValidItem) (now : Int) (s : Storage) (obj : Resource) :
    Except JSError (Option Pending) :=
  if !truthyStr obj.url then .ok none
  else
    let obj1 := { obj with key := if truthyStr obj.key then obj.key else obj.url }
    let source := get s (jsStr obj1.key)
    let obj2 := { obj1 with execute := some (obj1.execute != some false) }
    let shouldFetch := isCacheValid isValidItem now source obj2
    if obj2.live || shouldFetch then
      let obj3 := bustUrl obj2
      if obj3.live && !shouldFetch then .ok (some (.savedOr obj3 source))
      else .ok (some (.saved obj3))
    else
      match source with
      | .obj src =>
        .ok (some (.resolved (.obj { src with
          type := if truthyStr obj2.type then obj2.type else src.originalType
          execute := obj2.execute })))
      | _ => .error typeError

/-- Settling of a promise of `handleStackObject` (or of the `undefined` it returned, which
`RSVP.all` takes as a value), with the fetch completing at time `now`. -/
def settle (cap : Capacity) (net : Network) (defaultExpiration now : Int) (fuel : Nat)
    (s : Storage) : Option Pending → Option (Outcome × Storage)
  | none => some (.fulfilled none, s)
  | some (.resolved source) => some (.fulfilled (some source), s)
  | some (.saved obj) => saveUrl cap net defaultExpiration now fuel s obj
  | some (.savedOr obj source) =>
    match saveUrl cap net defaultExpiration now fuel s obj with
    | none => none
    | some (.rejected _, s1) => some (.fulfilled (some source), s1)
    | some (.fulfilled v, s1) => some (.fulfilled v, s1)

/-! ## Handlers and execution -/

/-- A handler function, identified by a name. -/
abbrev Handler := String

/-- The object `handlers`: its own properties in order of creation; the value `none` is
`undefined`.  Its prototype is `Object.prototype`. -/
abbrev Handlers := List (String × Option Handler)

/-- The initial value of `handlers`. -/
def handlers : Handlers := [("default", some "injectScript")]

/-- The value of a property of `handlers`: `undefined`, a handler function that was
assigned, a function inherited from `Object.prototype`, or an object that is not a
function. -/
inductive Slot where
  | undefined
  | function (h : Handler)
  | builtin (name : String)
  | object
deriving DecidableEq

/-- The properties that `handlers`, an object literal, inherits from `Object.prototype`
(those of the ECMAScript standard, its annex B included): `__proto__` is `Object.prototype`
itself, the others are functions. -/
def objectPrototype (name : String) : Slot :=
  if name = "__proto__" then .object
  else if name ∈ ["constructor", "hasOwnProperty", "isPrototypeOf", "propertyIsEnumerable",
      "toLocaleString", "toString", "valueOf", "__defineGetter__", "__defineSetter__",
      "__lookupGetter__", "__lookupSetter__"] then .builtin name
  else .undefined

/-- The property read `handlers[type]`: the own property when there is one, and what
`Object.prototype` gives otherwise. -/
def handlerOf (hs : Handlers) (type : String) : Slot :=
  match hs with
  | [] => objectPrototype type
  | (t, h) :: rest =>
    if t = type then
      match h with
      | some f => .function f
      | none => .undefined
    else handlerOf rest type

/-- The call `handlers[name]( obj )` of a value read from `handlers`: the function that runs
on `obj`, or the `TypeError` of the call.  A call of `undefined` or of an object throws;
of the inherited functions, `__defineGetter__` and `__defineSetter__` throw for want of a
function as second argument, and `toLocaleString` calls `handlers.toString`. -/
def callSlot (hs : Handlers) (slot : Slot) (obj : Resource) :
    Except JSError (Handler × Resource) :=
  match slot with
  | .undefined => .error typeError
  | .object => .error typeError
  | .function h => .ok (h, obj)
  | .builtin name =>
    if name = "__defineGetter__" ∨ name = "__defineSetter__" then .error typeError
    else if name = "toLocaleString" then
      match handlerOf hs "toString" with
      | .undefined => .error typeError
      | .object => .error typeError
      | _ => .ok ("Object.prototype." ++ name, obj)
    else .ok ("Object.prototype." ++ name, obj)

/-- The function `execute`: the function that is called on `obj`, or the exception of the
call. -/
def execute (hs : Handlers) (obj : Resource) : Except JSError (Handler × Resource) :=
  match (if truthyStr obj.type then handlerOf hs (jsStr obj.type) else Slot.undefined) with
  | .undefined => callSlot hs (handlerOf hs "default") obj
  | slot => callSlot hs slot obj

/-- The function `performActions`: the handler calls made, in order, and the array
returned or the exception thrown.  The read `obj.execute` throws on `undefined` and on
`null`. -/
def performActions (hs : Handlers) :
    List (Option Json) → List (Handler × Resource) × Except JSError (List (Option Json))
  | [] => ([], .ok [])
  | v :: rest =>
    match v with
    | none => ([], .error typeError)
    | some .null => ([], .error typeError)
    | some (.obj r) =>
      if r.execute = some true then
        match execute hs r with
        | .error e => ([], .error e)
        | .ok call =>
          match performActions hs rest with
          | (calls, .error e) => (call :: calls, .error e)
          | (calls, .ok out) => (call :: calls, .ok (v :: out))
      else
        match performActions hs rest with
        | (calls, .error e) => (calls, .error e)
        | (calls, .ok out) => (calls, .ok (v :: out))
    | some _ =>
      match performActions hs rest with
      | (calls, .error e) => (calls, .error e)
      | (calls, .ok out) => (calls, .ok (v :: out))

/-! ## Batches (`fetch`, `basket.require`) -/

/-- The loop of `fetch`: `handleStackObject` on each argument, in order. -/
def fetch (isValidItem : ValidItem) (now : Int) (s : Storage) :
    List Resource → Except JSError (List (Option Pending))
  | [] => .ok []
  | a :: rest =>
    match handleStackObject isValidItem now s a with
    | .error e => .error e
    | .ok p =>
      match fetch isValidItem now s rest with
      | .error e => .error e
      | .ok ps => .ok (p :: ps)

/-- Settling of the promises of a batch, here in the order of submission, all fetches
completing at time `now`. -/
def settleAll (cap : Capacity) (net : Network) (defaultExpiration now : Int) (fuel : Nat) :
    Storage → List (Option Pending) → Option (List Outcome × Storage)
  | s, [] => some ([], s)
  | s, p :: rest =>
    match settle cap net defaultExpiration now fuel s p with
    | none => none
    | some (o, s1) =>
      match settleAll cap net defaultExpiration now fuel s1 rest with
      | none => none
      | some (os, s2) => some (o :: os, s2)

/-- The call `RSVP.all`: the values in order when every promise is fulfilled, and a
rejection otherwise. -/
def rsvpAll : List Outcome → Except JSError (List (Option Json))
  | [] => .ok []
  | .rejected e :: _ => .error e
  | .fulfilled v :: rest =>
    match rsvpAll rest with
    | .error e => .error e
    | .ok vs => .ok (v :: vs)

/-- The method `Array.prototype.indexOf`, counted from `k`. -/
def arrayIndexOf {α : Type} [DecidableEq α] (x : α) : List α → Nat → Int
  | [], _ => -1
  | y :: ys, k => if y = x then (k : Int) else arrayIndexOf x ys (k + 1)

/-- The loop of `basket.require` over its arguments: the arguments after the loop and
the value of `inBasket`. -/
def track : List (Option String) → List Resource → List Resource × List (Option String)
  | inBasket, [] => ([], inBasket)
  | inBasket, a :: rest =>
    let a1 := { a with execute := some (a.execute != some false) }
    if a1.once && decide (arrayIndexOf a1.url inBasket 0 ≥ 0) then
      let r := track inBasket rest
      ({ a1 with execute := some false } :: r.1, r.2)
    else if a1.execute != some false && decide (arrayIndexOf a1.url inBasket 0 < 0) then
      let r := track (inBasket ++ [a1.url]) rest
      (a1 :: r.1, r.2)
    else
      let r := track inBasket rest
      (a1 :: r.1, r.2)

/-- How a call of `basket.require` ends: an exception thrown by the call itself, or the
promise it returns rejected or fulfilled. -/
inductive BatchOutcome where
  | threw (e : JSError)
  | rejected (e : JSError)
  | fulfilled (resources : List (Option Json))
deriving DecidableEq

/-- The state after a call of `basket.require` has run to its end. -/
structure Required where
  inBasket : List (Option String)
  storage : Storage
  calls : List (Handler × Resource)
  outcome : BatchOutcome
deriving DecidableEq

/-- The method `basket.require`, called at time `now` with the fetches completing at time
`later`.  `none` when `addLocalStorage` runs out of fuel. -/
def require (cap : Capacity) (net : Network) (isValidItem : ValidItem) (hs : Handlers)
    (defaultExpiration now later : Int) (fuel : Nat) (inBasket : List (Option String))
    (s : Storage) (args : List Resource) : Option Required :=
  let tracked := track inBasket args
  match fetch isValidItem now s tracked.1 with
  | .error e => some ⟨tracked.2, s, [], .threw e⟩
  | .ok promises =>
    match settleAll cap net defaultExpiration later fuel s promises with
    | none => none
    | some (outcomes, s1) =>
      match rsvpAll outcomes with
      | .error e => some ⟨tracked.2, s1, [], .rejected e⟩
      | .ok resources =>
        match performActions hs resources with
        | (calls, .error e) => some ⟨tracked.2, s1, calls, .rejected e⟩
        | (calls, .ok out) => some ⟨tracked.2, s1, calls, .fulfilled out⟩

/-! ## The default expiration -/

/-- A number passed to `setDefaultExpiration`, by the way JavaScript prints it
(`Number::toString`): a finite number printed in positional notation (zero, or a number
whose shortest decimal is at least `10^-6` and below `10^21` in magnitude), with its
value; a finite number printed in exponent notation, with its sign and the first digit of
its shortest decimal; `NaN`; or an infinity. -/
inductive JSNumber where
  | positional (q : ℚ)
  | exponential (negative : Bool) (lead : Nat)
  | nan
  | posInf
  | negInf

/-- The number truncated toward zero. -/
def truncate (q : ℚ) : Int := if 0 ≤ q then ⌊q⌋ else ⌈q⌉

/-- The function `parseInt` on a number: it prints the number and reads the leading
decimal integer.  For a number printed in positional notation that is the number
truncated toward zero; for one printed in exponent notation it is the first digit, with
the sign; for `NaN` and the infinities it is `NaN` (`none`). -/
def parseInt : JSNumber → Option Int
  | .positional q => some (truncate q)
  | .exponential negative lead => some (if negative then -(lead : Int) else (lead : Int))
  | _ => none

/-- The range of the numbers that JavaScript prints in positional notation: zero, and the
magnitudes from `10^-6` up to, but not including, `10^21`. -/
def PositionalRange (q : ℚ) : Prop :=
  q = 0 ∨ (1 / 10 ^ 6 ≤ |q| ∧ |q| < 10 ^ 21)

/-- The values of the finite doubles: `m * 2^e` with `|m| < 2^53` and `-1074 ≤ e ≤ 971`. -/
def IsDouble (q : ℚ) : Prop :=
  ∃ m e : Int, m.natAbs < 2 ^ 53 ∧ -1074 ≤ e ∧ e ≤ 971 ∧ q = (m : ℚ) * (2 : ℚ) ^ e

/-- The initial value of `defaultExpiration`. -/
def defaultExpiration : Int := 5000

/-- The method `basket.setDefaultExpiration`: the value returned and the value of
`defaultExpiration` afterwards. -/
def setDefaultExpiration (hours : JSNumber) (current : Int) : Bool × Int :=
  match parseInt hours with
  | some intHours => if intHours ≥ 1 then (true, intHours) else (false, current)
  | none => (false, current)

/-- The method `basket.getDefaultExpiration`. -/
def getDefaultExpiration (current : Int) : Int := current

/-- The value of `defaultExpiration` after a sequence of calls of
`basket.setDefaultExpiration`. -/
def defaultAfter (calls : List JSNumber) : Int :=
  calls.foldl (fun d hours => (setDefaultExpiration hours d).2) defaultExpiration

/-- The shape of the store that the eviction of `addLocalStorage` relies on: every item
under the storage prefix holds an entry with a numeric `stamp`, stored under the prefix
followed by the entry's own `key`. -/
def WellKeyed (s : Storage) : Prop :=
  ∀ kv ∈ s, indexOf kv.1 storagePrefix = 0 →
    ∃ e k t, kv.2 = Stored.json (Json.obj e) ∧ e.key = some k ∧ kv.1 = storagePrefix ++ k ∧
      e.stamp = some t

/-! ## Clearing the store (`basket.clear`) -/

/-- Splitting of a list of characters at the occurrences of a non-empty separator: `skip`
counts the characters of a matched separator still to pass, `acc` holds the current piece
in reverse. -/
def splitChars (sep : List Char) : List Char → Nat → List Char → List (List Char)
  | [], _, acc => [acc.reverse]
  | _ :: cs, skip + 1, acc => splitChars sep cs skip acc
  | c :: cs, 0, acc =>
    if sep.isPrefixOf (c :: cs) then acc.reverse :: splitChars sep cs (sep.length - 1) []
    else splitChars sep cs 0 (c :: acc)

/-- The method `String.prototype.split` with a non-empty separator. -/
def split (s sep : String) : List String :=
  (splitChars sep.data s.data 0 []).map String.mk

/-- The property read `x.expire`, which throws on `null`; `none` is `undefined`. -/
def Json.readExpire : Json → Except JSError (Option Int)
  | .null => .error typeError
  | .obj r => .ok r.expire
  | _ => .ok none

/-- The loop of `basket.clear` at time `now` over the keys that `localStorage` had when
the loop began: the contents of the store at the end, with the exception that stopped
the loop if one was thrown. -/
def clearLoop (expired : Bool) (now : Int) : List String → Storage → Storage × Option JSError
  | [], s => (s, none)
  | item :: rest, s =>
    let key := (split item storagePrefix)[1]?
    if truthyStr key then
      if !expired then clearLoop expired now rest (remove s key)
      else
        match (get s (jsStr key)).readExpire with
        | .error e => (s, some e)
        | .ok (some x) =>
          if x ≤ now then clearLoop expired now rest (remove s key)
          else clearLoop expired now rest s
        | .ok none => clearLoop expired now rest s
    else clearLoop expired now rest s

/-- The method `basket.clear` at time `now` (its effect on the store; when no exception
is thrown it returns the basket). -/
def clear (expired : Bool) (now : Int) (s : Storage) : Storage × Option JSError :=
  clearLoop expired now (s.map Prod.fst) s

/-! ## Registering handlers -/

/-- The own properties of `handlers` after an assignment to the data property `type`. -/
def assignHandler (hs : Handlers) (type : String) (handler : Option Handler) : Handlers :=
  match hs with
  | [] => [(type, handler)]
  | (t, h) :: rest =>
    if t = type then (type, handler) :: rest else (t, h) :: assignHandler rest type handler

/-- The assignment `handlers[type] = handler`.  For the type `__proto__` it runs the setter
of `Object.prototype`: `undefined` is ignored, and a function becomes the prototype of
`handlers`, after which what `handlers` inherits depends on that function and is outside
the embedding (`none`). -/
def setHandler (hs : Handlers) (type : String) (handler : Option Handler) : Option Handlers :=
  if type = "__proto__" then
    match handler with
    | none => some hs
    | some _ => none
  else some (assignHandler hs type handler)

/-- The method `basket.addHandler`; a single type is the list of that type. -/
def addHandler (hs : Handlers) (types : List String) (handler : Option Handler) :
    Option Handlers :=
  match types with
  | [] => some hs
  | type :: rest =>
    match setHandler hs type handler with
    | none => none
    | some hs1 => addHandler hs1 rest handler

/-- The method `basket.removeHandler`. -/
def removeHandler (hs : Handlers) (types : List String) : Option Handlers :=
  addHandler hs types none

/-- A call of `basket.addHandler` or of `basket.removeHandler`. -/
inductive HandlerCall where
  | add (types : List String) (handler : Handler)
  | remove (types : List String)

/-- The value of `handlers` after a sequence of calls, from the initial one. -/
def handlersAfter : List HandlerCall → Handlers → Option Handlers
  | [], hs => some hs
  | .add types handler :: rest, hs =>
    match addHandler hs types (some handler) with
    | none => none
    | some hs1 => handlersAfter rest hs1
  | .remove types :: rest, hs =>
    match removeHandler hs types with
    | none => none
    | some hs1 => handlersAfter rest hs1

/-! ## Sequences of calls and shapes of the store -/

/-- The value of `inBasket` after a sequence of calls of `basket.require`, from the
initial empty array. -/
def inBasketAfter (calls : List (List Resource)) : List (Option String) :=
  calls.foldl (fun inBasket args => (track inBasket args).2) []

/-- The number of items of the store under the storage prefix. -/
def namespacedCount (s : Storage) : Nat :=
  s.countP (fun kv => decide (indexOf kv.1 storagePrefix = 0))

/-- Every item under the storage prefix holds an entry that is stored under the prefix
followed by the entry's own `key`. -/
def Keyed (s : Storage) : Prop :=
  ∀ kv ∈ s, indexOf kv.1 storagePrefix = 0 →
    ∃ e k, kv.2 = Stored.json (Json.obj e) ∧ e.key = some k ∧ kv.1 = storagePrefix ++ k

/-! ## Example inputs -/

/-- A descriptor `{ url: u }`. -/
def descriptor (u : String) : Resource :=
  { url := some u, key := none, type := none, live := false, unique := none, once := false,
    expire := none, skipCache := false, execute := none, data := none,
    originalType := none, stamp := none }

/-- A cache entry of key `k`, created at time `t` with the default expiration, as
`wrapStoreData` leaves it. -/
def entryAt (k : String) (t : Int) : Resource :=
  { url := some k, key := some k, type := some "text/javascript", live := false,
    unique := none, once := false, expire := some (t + 5000 * 60 * 60 * 1000),
    skipCache := false, execute := some true, data := some "code",
    originalType := some "text/javascript", stamp := some t }

/-- A store that takes at most `n` items and raises `QuotaExceededError` beyond. -/
def capacityOf (n : Nat) : Capacity := fun s k v =>
  if (writeItem s k v).length ≤ n then none else some ⟨"QuotaExceededError"⟩

/-- A store that accepts every write. -/
def unbounded : Capacity := fun _ _ _ => none

/-- A store with two entries of the cache and one foreign item. -/
def twoEntries : Storage :=
  [("basket-a", jsonStringify (entryAt "a" 5)), ("other", Stored.unparsable),
   ("basket-b", jsonStringify (entryAt "b" 3))]

/-- A network on which every request succeeds. -/
def online : Network := fun _ => some ⟨"code", some "text/javascript"⟩

/-- A network on which every request fails. -/
def offline : Network := fun _ => none

/-- A descriptor `{ url: "x.js", once: true, live: true }`. -/
def onceLive : Resource := { descriptor "x.js" with once := true, live := true }

/-- The entry that the first request of `onceLive` stores, its fetch completing at time
`1001`. -/
def onceLiveEntry : Resource :=
  wrapStoreData defaultExpiration 1001
    { onceLive with key := some "x.js", execute := some true } ⟨"code", some "text/javascript"⟩

/-- A descriptor `{ key: "k" }`, without a url. -/
def withoutUrl : Resource := { descriptor "" with url := none, key := some "k" }

/-- The entry that a request of `{ url: "a.js" }` stores, its fetch completing at time
`1001`. -/
def fetchedEntry : Resource :=
  wrapStoreData defaultExpiration 1001
    { descriptor "a.js" with key := some "a.js", execute := some true }
    ⟨"code", some "text/javascript"⟩

/-! ## The store: lookups after a removal and a write -/

theorem getItem_removeItem_self (s : Storage) (k : String) : getItem (removeItem s k) k = none := by
  induction s with
  | nil => rfl
  | cons kv rest ih =>
    obtain ⟨k1, v⟩ := kv
    by_cases h : k1 = k
    · simpa [removeItem, h] using ih
    · have : removeItem ((k1, v) :: rest) k = (k1, v) :: removeItem rest k := by
        simp [removeItem, h]
      rw [this]
      simp [getItem, h, ih]

theorem getItem_removeItem_ne (s : Storage) (k k2 : String) (hne : k2 ≠ k) :
    getItem (removeItem s k) k2 = getItem s k2 := by
  induction s with
  | nil => rfl
  | cons kv rest ih =>
    obtain ⟨k1, v⟩ := kv
    by_cases h : k1 = k
    · have h2 : k1 ≠ k2 := by rw [h]; exact fun e => hne e.symm
      have : removeItem ((k1, v) :: rest) k = removeItem rest k := by
        simp [removeItem, h]
      rw [this, ih]
      simp [getItem, h2]
    · have : removeItem ((k1, v) :: rest) k = (k1, v) :: removeItem rest k := by
        simp [removeItem, h]
      rw [this]
      simp only [getItem, ih]

theorem getItem_writeItem_self (s : Storage) (k : String) (v : Stored) :
    getItem (writeItem s k v) k = some v := by
  induction s with
  | nil => simp [writeItem, getItem]
  | cons kv rest ih =>
    obtain ⟨k1, v1⟩ := kv
    by_cases h : k1 = k
    · simp [writeItem, getItem, h]
    · simp [writeItem, getItem, h, ih]

theorem getItem_writeItem_ne (s : Storage) (k k2 : String) (v : Stored) (hne : k2 ≠ k) :
    getItem (writeItem s k v) k2 = getItem s k2 := by
  have hne2 : ¬ k = k2 := fun e => hne e.symm
  induction s with
  | nil => simp [writeItem, getItem, hne2]
  | cons kv rest ih =>
    obtain ⟨k1, v1⟩ := kv
    by_cases h : k1 = k
    · subst h
      simp [writeItem, getItem, hne2]
    · simp [writeItem, getItem, h, ih]

theorem mem_of_getItem (s : Storage) (k : String) (v : Stored) (h : getItem s k = some v) :
    (k, v) ∈ s := by
  induction s with
  | nil => simp [getItem] at h
  | cons kv rest ih =>
    obtain ⟨k1, v1⟩ := kv
    by_cases h1 : k1 = k
    · simp [getItem, h1] at h
      simp [h1, h]
    · simp [getItem, h1] at h
      exact List.mem_cons_of_mem _ (ih h)

theorem getItem_ne_none_of_mem (s : Storage) (k : String) (v : Stored) (h : (k, v) ∈ s) :
    getItem s k ≠ none := by
  induction s with
  | nil => simp at h
  | cons kv rest ih =>
    obtain ⟨k1, v1⟩ := kv
    by_cases h1 : k1 = k
    · simp [getItem, h1]
    · simp [getItem, h1]
      rcases List.mem_cons.1 h with h2 | h2
      · exact absurd (congrArg Prod.fst h2).symm h1
      · simpa using ih h2

theorem indexOfChars_self_append (pat rest : List Char) : indexOfChars pat (pat ++ rest) 0 = 0 := by
  have hp : pat.isPrefixOf (pat ++ rest) = true := by
    rw [List.isPrefixOf_iff_prefix]; exact List.prefix_append _ _
  cases hl : pat ++ rest with
  | nil =>
    rw [hl] at hp
    simp [indexOfChars, hp]
  | cons c cs =>
    rw [hl] at hp
    simp [indexOfChars, hp]

theorem indexOf_storagePrefix_append (k : String) : indexOf (storagePrefix ++ k) storagePrefix = 0 := by
  unfold indexOf
  rw [String.data_append]
  exact indexOfChars_self_append _ _

theorem storagePrefix_append_inj (a b : String) (h : storagePrefix ++ a = storagePrefix ++ b) : a = b := by
  have h1 := congrArg String.data h
  rw [String.data_append, String.data_append] at h1
  exact String.ext (List.append_cancel_left h1)

/-! ## Eviction -/

theorem scanEntries_ok (s : Storage)
    (h : ∀ kv ∈ s, indexOf kv.1 storagePrefix = 0 → ∃ v, kv.2 = Stored.json v) :
    ∃ ps, scanEntries s = .ok ps ∧
      ∀ p, p ∈ ps ↔ ∃ k, indexOf k storagePrefix = 0 ∧ (k, Stored.json p) ∈ s := by
  induction s with
  | nil => exact ⟨[], rfl, by simp⟩
  | cons kv rest ih =>
    obtain ⟨k1, v1⟩ := kv
    obtain ⟨ps, hps, hmem⟩ := ih (fun kv hkv => h kv (List.mem_cons_of_mem _ hkv))
    by_cases hk : indexOf k1 storagePrefix = 0
    · obtain ⟨v, hv⟩ := h (k1, v1) (List.mem_cons_self _ _) hk
      simp only at hv
      subst hv
      refine ⟨v :: ps, by simp [scanEntries, hk, jsonParse, hps], ?_⟩
      intro p
      constructor
      · intro hp
        rcases List.mem_cons.1 hp with hp | hp
        · exact ⟨k1, hk, by simp [hp]⟩
        · obtain ⟨k, hk2, hin⟩ := (hmem p).1 hp
          exact ⟨k, hk2, List.mem_cons_of_mem _ hin⟩
      · rintro ⟨k, hk2, hin⟩
        rcases List.mem_cons.1 hin with hin | hin
        · have : p = v := by
            have := congrArg Prod.snd hin
            simpa using this
          simp [this]
        · exact List.mem_cons_of_mem _ ((hmem p).2 ⟨k, hk2, hin⟩)
    · refine ⟨ps, by simp [scanEntries, hk, hps], ?_⟩
      intro p
      rw [hmem p]
      constructor
      · rintro ⟨k, hk2, hin⟩
        exact ⟨k, hk2, List.mem_cons_of_mem _ hin⟩
      · rintro ⟨k, hk2, hin⟩
        rcases List.mem_cons.1 hin with hin | hin
        · have : k = k1 := congrArg Prod.fst hin
          exact absurd (this ▸ hk2) hk
        · exact ⟨k, hk2, hin⟩

theorem stampLE_iff (a b : Json) (x y : Int) (ha : a.stamp = some x) (hb : b.stamp = some y) :
    stampLE a b ↔ x ≤ y := by
  simp [stampLE, compareStamp, ha, hb]

theorem insertionSort_head (ps : List Json) (hne : ps ≠ [])
    (hnum : ∀ p ∈ ps, ∃ t, p.stamp = some t) :
    ∃ h rest th, ps.insertionSort stampLE = h :: rest ∧ h ∈ ps ∧ h.stamp = some th ∧
      ∀ p ∈ ps, ∀ t, p.stamp = some t → th ≤ t := by
  induction ps with
  | nil => exact absurd rfl hne
  | cons a l ih =>
    obtain ⟨ta, hta⟩ := hnum a (List.mem_cons_self _ _)
    by_cases hl : l = []
    · subst hl
      refine ⟨a, [], ta, by simp, by simp, hta, ?_⟩
      intro p hp t ht
      simp at hp
      subst hp
      rw [hta] at ht
      exact le_of_eq (Option.some.inj ht)
    · obtain ⟨h, rest, th, hs, hin, hth, hmin⟩ :=
        ih hl (fun p hp => hnum p (List.mem_cons_of_mem _ hp))
      by_cases hle : ta ≤ th
      · refine ⟨a, h :: rest, ta, ?_, by simp, hta, ?_⟩
        · simp [List.insertionSort, hs, List.orderedInsert, (stampLE_iff a h ta th hta hth).2 hle]
        · intro p hp t ht
          rcases List.mem_cons.1 hp with hp | hp
          · subst hp
            rw [hta] at ht
            exact le_of_eq (Option.some.inj ht)
          · exact le_trans hle (hmin p hp t ht)
      · refine ⟨h, List.orderedInsert stampLE a rest, th, ?_, List.mem_cons_of_mem _ hin, hth, ?_⟩
        · have : ¬ stampLE a h := fun hc => hle ((stampLE_iff a h ta th hta hth).1 hc)
          simp [List.insertionSort, hs, List.orderedInsert, this]
        · intro p hp t ht
          rcases List.mem_cons.1 hp with hp | hp
          · subst hp
            rw [hta] at ht
            have : ta = t := Option.some.inj ht
            omega
          · exact hmin p hp t ht

/-- C1: eviction correctness of `addLocalStorage`.  In a store whose entries of the cache
have pairwise distinct stamps and are each stored under the prefix followed by their own
key, let `m` be the entry with the least stamp.  If the store rejects the write of a new
entry under a fresh key with a quota exception, and accepts it once any one entry of the
cache is removed, then `addLocalStorage` returns `true`, the item of `m` is gone, the new
entry is stored, and every other item of the store is unchanged. -/
theorem C1_eviction_removes_oldest (cap : Capacity) (s : Storage) (key : String)
    (storeObj m : Resource) (mk : String) (tm : Int) (fuel : Nat) (quota : JSError)
    (hwf : WellKeyed s)
    (hdist : ∀ k1 e1 k2 e2, indexOf k1 storagePrefix = 0 → indexOf k2 storagePrefix = 0 →
      (k1, Stored.json (Json.obj e1)) ∈ s → (k2, Stored.json (Json.obj e2)) ∈ s →
      e1.stamp = e2.stamp → k1 = k2 ∧ e1 = e2)
    (hm : (storagePrefix ++ mk, Stored.json (Json.obj m)) ∈ s)
    (hmk : m.key = some mk) (hmt : m.stamp = some tm)
    (hmin : ∀ k e t, indexOf k storagePrefix = 0 → (k, Stored.json (Json.obj e)) ∈ s →
      e.stamp = some t → tm ≤ t)
    (hfresh : getItem s (storagePrefix ++ key) = none)
    (hfull : cap s (storagePrefix ++ key) (jsonStringify storeObj) = some quota)
    (hquota : indexOf (toUpperCase quota.name) "QUOTA" ≥ 0)
    (hroom : ∀ kv ∈ s, indexOf kv.1 storagePrefix = 0 →
      cap (removeItem s kv.1) (storagePrefix ++ key) (jsonStringify storeObj) = none) :
    ∃ s2, addLocalStorage cap (fuel + 2) s key storeObj = some (.ok true, s2) ∧
      getItem s2 (storagePrefix ++ mk) = none ∧
      getItem s2 (storagePrefix ++ key) = some (jsonStringify storeObj) ∧
      ∀ k, k ≠ storagePrefix ++ mk → k ≠ storagePrefix ++ key → getItem s2 k = getItem s k := by
  have hnsm : indexOf (storagePrefix ++ mk) storagePrefix = 0 := indexOf_storagePrefix_append mk
  -- the scan returns the parsed entries
  obtain ⟨ps, hscan, hps⟩ := scanEntries_ok s (fun kv hkv hk => by
    obtain ⟨e, _, _, he, _⟩ := hwf kv hkv hk
    exact ⟨_, he⟩)
  have hobj : ∀ p ∈ ps, ∃ k e kk t, indexOf k storagePrefix = 0 ∧
      (k, Stored.json (Json.obj e)) ∈ s ∧ p = Json.obj e ∧ e.key = some kk ∧
      k = storagePrefix ++ kk ∧ e.stamp = some t := by
    intro p hp
    obtain ⟨k, hk, hin⟩ := (hps p).1 hp
    obtain ⟨e, kk, t, he, hek, hkk, het⟩ := hwf _ hin hk
    simp only at he hkk
    have hpe : p = Json.obj e := by
      have := Stored.json.inj he
      exact this
    subst hpe
    exact ⟨k, e, kk, t, hk, hin, rfl, hek, hkk, het⟩
  have hmps : Json.obj m ∈ ps := (hps _).2 ⟨_, hnsm, hm⟩
  have hne : ps ≠ [] := List.ne_nil_of_mem hmps
  have hnonull : ps.any (fun x => x = Json.null) = false := by
    rw [List.any_eq_false]
    intro p hp
    obtain ⟨_, e, _, _, _, _, hpe, _⟩ := hobj p hp
    simp [hpe]
  obtain ⟨h, rest, th, hsort, hin, hth, hhmin⟩ := insertionSort_head ps hne (fun p hp => by
    obtain ⟨_, e, _, t, _, _, hpe, _, _, het⟩ := hobj p hp
    exact ⟨t, by simp [hpe, Json.stamp, het]⟩)
  obtain ⟨k, e, kk, t, hk, hes, hpe, hek, hkk, het⟩ := hobj h hin
  have htt : t = th := by
    rw [hpe] at hth
    simp only [Json.stamp] at hth
    rw [het] at hth
    exact Option.some.inj hth
  have h1 : th ≤ tm := hhmin _ hmps tm (by simp [Json.stamp, hmt])
  have h2 : tm ≤ t := hmin k e t hk hes het
  have hst : e.stamp = m.stamp := by rw [het, hmt]; congr 1; omega
  obtain ⟨hkeq, hem⟩ := hdist k e _ m hk hnsm hes hm hst
  subst hem
  have hkey : h.key = .ok (some mk) := by simp [hpe, Json.key, hmk]
  have hlen : ps.length ≠ 0 := by
    intro hc
    exact hne (List.length_eq_zero.1 hc)
  have hretry := hroom _ hm hnsm
  simp only at hretry
  refine ⟨writeItem (removeItem s (storagePrefix ++ mk)) (storagePrefix ++ key)
    (jsonStringify storeObj), ?_, ?_, ?_, ?_⟩
  · have hsortBy : sortByStamp ps = .ok (h :: rest) := by
      simp [sortByStamp, hnonull, hsort]
    simp only [addLocalStorage, setItem, hfull, hquota, hscan, hlen, hsortBy, hkey, remove,
      jsStr, hretry, ne_eq, not_false_eq_true, if_true]
  · have hne2 : storagePrefix ++ mk ≠ storagePrefix ++ key := by
      intro hc
      rw [← hc] at hfresh
      exact getItem_ne_none_of_mem s _ _ hm hfresh
    rw [getItem_writeItem_ne _ _ _ _ hne2]
    exact getItem_removeItem_self _ _
  · exact getItem_writeItem_self _ _ _
  · intro k2 hk1 hk2
    rw [getItem_writeItem_ne _ _ _ _ hk2, getItem_removeItem_ne _ _ _ hk1]

/-- The eviction theorem on a store of two entries in which a third does not fit. -/
theorem C1_witness :
    ∃ s2, addLocalStorage (capacityOf 3) 2 twoEntries "c" (entryAt "c" 9) = some (.ok true, s2) ∧
      getItem s2 (storagePrefix ++ "b") = none ∧
      getItem s2 (storagePrefix ++ "c") = some (jsonStringify (entryAt "c" 9)) ∧
      ∀ k, k ≠ storagePrefix ++ "b" → k ≠ storagePrefix ++ "c" →
        getItem s2 k = getItem twoEntries k :=
  C1_eviction_removes_oldest (capacityOf 3) twoEntries "c" (entryAt "c" 9) (entryAt "b" 3) "b" 3 0
    ⟨"QuotaExceededError"⟩
    (by
      intro kv hkv hk
      simp only [twoEntries, List.mem_cons, List.mem_singleton, List.mem_nil_iff, or_false] at hkv
      rcases hkv with rfl | rfl | rfl
      · exact ⟨entryAt "a" 5, "a", 5, rfl, rfl, rfl, rfl⟩
      · exact absurd hk (by decide)
      · exact ⟨entryAt "b" 3, "b", 3, rfl, rfl, rfl, rfl⟩)
    (by
      intro k1 e1 k2 e2 _ _ h1 h2 hs
      simp only [twoEntries, jsonStringify, List.mem_cons, List.mem_singleton, Prod.mk.injEq,
        Stored.json.injEq, Json.obj.injEq, List.mem_nil_iff, or_false, false_and, reduceCtorEq,
        and_false, false_or, or_false] at h1 h2
      rcases h1 with ⟨rfl, rfl⟩ | ⟨rfl, rfl⟩ <;> rcases h2 with ⟨rfl, rfl⟩ | ⟨rfl, rfl⟩
      · exact ⟨rfl, rfl⟩
      · exact absurd hs (by decide)
      · exact absurd hs (by decide)
      · exact ⟨rfl, rfl⟩)
    (by decide) rfl rfl
    (by
      intro k e t _ h1 ht
      simp only [twoEntries, jsonStringify, List.mem_cons, List.mem_singleton, Prod.mk.injEq,
        Stored.json.injEq, Json.obj.injEq, List.mem_nil_iff, or_false, false_and, reduceCtorEq,
        and_false, false_or, or_false] at h1
      rcases h1 with ⟨rfl, rfl⟩ | ⟨rfl, rfl⟩
      · simp only [entryAt, Option.some.injEq] at ht
        omega
      · simp only [entryAt, Option.some.injEq] at ht
        omega)
    (by decide) (by decide) (by decide) (by decide)

/-! ## The validity check -/

/-- C2: an entry whose `expire` equals the current time is not refetched.  With the entry
`entryAt "x.js" 0` stored, at the time of its `expire`, `isCacheValid` answers `false` (no
fetch needed) for the descriptor `{ url: "x.js" }`, and `handleStackObject` resolves with
the stored entry. -/
theorem C2_expiry_boundary_not_refetched :
    (entryAt "x.js" 0).expire = some 18000000000 ∧
    isCacheValid none 18000000000 (Json.obj (entryAt "x.js" 0)) (descriptor "x.js") = false ∧
    handleStackObject none 18000000000
        [("basket-x.js", jsonStringify (entryAt "x.js" 0))] (descriptor "x.js") =
      .ok (some (.resolved (Json.obj
        { entryAt "x.js" 0 with type := some "text/javascript", execute := some true }))) := by
  refine ⟨by decide, by decide, by decide⟩

/-- C3: a descriptor with a url whose `unique` differs from the `unique` of the entry
stored under its key has to be fetched: `isCacheValid` answers `true`, whatever the expiry
of the entry and the verdict of `isValidItem`, and `handleStackObject` returns the promise
of `saveUrl`, with no fall-back to the stored entry. -/
theorem C3_unique_mismatch_refetches (isValidItem : ValidItem) (now : Int) (s : Storage)
    (obj e : Resource) (hurl : truthyStr obj.url = true)
    (hsource : get s (jsStr (if truthyStr obj.key then obj.key else obj.url)) = Json.obj e)
    (hne : obj.unique ≠ e.unique) :
    isCacheValid isValidItem now (Json.obj e) obj = true ∧
    handleStackObject isValidItem now s obj =
      .ok (some (.saved (bustUrl { obj with
        key := if truthyStr obj.key then obj.key else obj.url
        execute := some (obj.execute != some false) }))) := by
  constructor
  · simp [isCacheValid, Json.unique, hne]
  · simp [handleStackObject, hurl, hsource, isCacheValid, Json.unique, hne]

/-- The refetch on a changed `unique`: the entry was stored for `unique: "v1"`, is not
expired, and is requested with `unique: "v2"`. -/
theorem C3_witness :
    isCacheValid none 1000 (Json.obj { entryAt "x.js" 0 with unique := some "v1" })
        { descriptor "x.js" with unique := some "v2" } = true ∧
    handleStackObject none 1000
        [("basket-x.js", jsonStringify { entryAt "x.js" 0 with unique := some "v1" })]
        { descriptor "x.js" with unique := some "v2" } =
      .ok (some (.saved (bustUrl { descriptor "x.js" with
        unique := some "v2", key := some "x.js", execute := some true }))) :=
  C3_unique_mismatch_refetches none 1000
    [("basket-x.js", jsonStringify { entryAt "x.js" 0 with unique := some "v1" })]
    { descriptor "x.js" with unique := some "v2" }
    { entryAt "x.js" 0 with unique := some "v1" } (by decide) (by decide) (by decide)

/-! ## Once and live -/

/-- C4: a `once` descriptor whose url is tracked is executed again on the fall-back path
of a live refresh.  The descriptor `{ url: "x.js", once: true, live: true }` is required
twice; the first call fetches, stores the entry (with `execute: true`) and tracks the url;
in the second call `basket.require` sets `execute` to `false`, the refresh fails, the
promise falls back to the stored entry, whose `execute` is still `true`, and
`performActions` calls the handler. -/
theorem C4_once_live_fallback_executes :
    ∃ first second,
      require unbounded online none handlers defaultExpiration 1000 1001 1 [] [] [onceLive]
        = some first ∧
      first.inBasket = [some "x.js"] ∧
      first.storage = [("basket-x.js", jsonStringify onceLiveEntry)] ∧
      (track first.inBasket [onceLive]).1.map (fun a => a.execute) = [some false] ∧
      require unbounded offline none handlers defaultExpiration 2000 2001 1 first.inBasket
        first.storage [onceLive] = some second ∧
      second.outcome = .fulfilled [some (Json.obj onceLiveEntry)] ∧
      onceLiveEntry.execute = some true ∧
      second.calls = [("injectScript", onceLiveEntry)] :=
  ⟨_, _, rfl, rfl, rfl, rfl, rfl, rfl, rfl, rfl⟩

/-! ## Live refresh -/

theorem bustUrl_live (obj : Resource) : (bustUrl obj).live = obj.live := by
  unfold bustUrl
  split <;> rfl

/-- C8: live fall-back.  For a descriptor with a url and `live` set, if the value stored
under its key passes the validity check (`isCacheValid` answers `false`: no fetch needed)
and the request of the url fails, then the promise of `handleStackObject` is fulfilled,
not rejected, with the stored value itself, and the store is unchanged. -/
theorem C8_live_fallback (cap : Capacity) (net : Network) (isValidItem : ValidItem)
    (d now later : Int) (fuel : Nat) (s : Storage) (obj : Resource) (source : Json)
    (hurl : truthyStr obj.url = true) (hlive : obj.live = true)
    (hsource : get s (jsStr (if truthyStr obj.key then obj.key else obj.url)) = source)
    (hvalid : isCacheValid isValidItem now source { obj with
        key := if truthyStr obj.key then obj.key else obj.url
        execute := some (obj.execute != some false) } = false)
    (hfail : net (jsStr (bustUrl { obj with
        key := if truthyStr obj.key then obj.key else obj.url
        execute := some (obj.execute != some false) }).url) = none) :
    ∃ p, handleStackObject isValidItem now s obj = .ok (some p) ∧
      settle cap net d later fuel s (some p) = some (.fulfilled (some source), s) := by
  have hl : (bustUrl { obj with
        key := if truthyStr obj.key then obj.key else obj.url
        execute := some (obj.execute != some false) }).live = true := by
    rw [bustUrl_live]
    exact hlive
  refine ⟨.savedOr (bustUrl { obj with
        key := if truthyStr obj.key then obj.key else obj.url
        execute := some (obj.execute != some false) }) source, ?_, ?_⟩
  · simp only [hlive] at hvalid hl
    simp [handleStackObject, hurl, hsource, hlive, hvalid, hl]
  · simp only [settle, saveUrl, hfail]

/-- The live refresh of a stored, unexpired entry while the network is down. -/
theorem C8_witness :
    ∃ p, handleStackObject none 1000 [("basket-x.js", jsonStringify (entryAt "x.js" 0))]
        { descriptor "x.js" with live := true } = .ok (some p) ∧
      settle unbounded offline 5000 1001 0 [("basket-x.js", jsonStringify (entryAt "x.js" 0))]
        (some p) =
        some (.fulfilled (some (Json.obj (entryAt "x.js" 0))),
          [("basket-x.js", jsonStringify (entryAt "x.js" 0))]) :=
  C8_live_fallback unbounded offline none 5000 1000 1001 0
    [("basket-x.js", jsonStringify (entryAt "x.js" 0))]
    { descriptor "x.js" with live := true } (Json.obj (entryAt "x.js" 0))
    (by decide) rfl (by decide) (by decide) rfl

/-! ## Clearing the store -/

/-- C11: `basket.clear` leaves an entry whose key contains the storage prefix.  For the
item `basket-a-basket-b` (the entry of key `a-basket-b`) the expression
`item.split(storagePrefix)[1]` is `a-`, so `clear(false)` removes the absent item
`basket-a-` and the entry stays: `get("a-basket-b")` still returns it. -/
theorem C11_clear_leaves_key_containing_prefix :
    split "basket-a-basket-b" storagePrefix = ["", "a-", "b"] ∧
    clear false 0 [("basket-a-basket-b", jsonStringify (entryAt "a-basket-b" 1))] =
      ([("basket-a-basket-b", jsonStringify (entryAt "a-basket-b" 1))], none) ∧
    get (clear false 0 [("basket-a-basket-b", jsonStringify (entryAt "a-basket-b" 1))]).1
      "a-basket-b" = Json.obj (entryAt "a-basket-b" 1) ∧
    get (clear false 0 [("basket-a-basket-b", jsonStringify (entryAt "a-basket-b" 1))]).1
      "a-basket-b" ≠ Json.bool false ∧
    clear false 0 [] = ([], none) := by
  refine ⟨by decide, by decide, by decide, by decide, by decide⟩

/-- C13: a malformed stored value makes `basket.clear` and `addLocalStorage` throw.
`basket.get` returns `false` for a missing and for an unparsable item; but `clear(true)`
throws a `TypeError` on an item that holds `null`, and `addLocalStorage`, when the store
is full, throws the `SyntaxError` of `JSON.parse` on an unparsable item and a `TypeError`
on an item that holds `null`. -/
theorem C13_malformed_entry_throws :
    get [] "x" = Json.bool false ∧
    get [("basket-x", Stored.unparsable)] "x" = Json.bool false ∧
    clear true 0 [("basket-x", Stored.json Json.null)] =
      ([("basket-x", Stored.json Json.null)], some typeError) ∧
    addLocalStorage (capacityOf 1) 2 [("basket-x", Stored.unparsable)] "c" (entryAt "c" 1) =
      some (.error syntaxError, [("basket-x", Stored.unparsable)]) ∧
    addLocalStorage (capacityOf 1) 2 [("basket-x", Stored.json Json.null)] "c" (entryAt "c" 1) =
      some (.error typeError, [("basket-x", Stored.json Json.null)]) := by
  refine ⟨by decide, by decide, by decide, by decide, by decide⟩

/-! ## Descriptors without a url -/

/-- C14: a descriptor without a url makes the batch fail.  For
`require({ url: "a.js" }, { key: "k" })` on an empty store with the network up,
`handleStackObject` returns `undefined` for the second descriptor (no fetch, no write),
`RSVP.all` passes that `undefined` on, and `performActions`, after the handler call for
`a.js`, throws a `TypeError` on reading its `execute`: the promise of the batch is
rejected. -/
theorem C14_descriptor_without_url_rejects_batch :
    handleStackObject none 1000 [] { withoutUrl with execute := some true } = .ok none ∧
    require unbounded online none handlers defaultExpiration 1000 1001 1 [] []
        [descriptor "a.js", withoutUrl] =
      some ⟨[some "a.js", none], [("basket-a.js", jsonStringify fetchedEntry)],
        [("injectScript", fetchedEntry)], .rejected typeError⟩ := by
  refine ⟨by decide, by decide⟩

/-! ## The cache-busting url -/

/-- C18: a url that starts with `?` gets a second `?`.  For the descriptor
`{ url: "?v=1", unique: "u" }` the test `obj.url.indexOf('?') > 0` is false, the `?` being
at index 0, and the url that the fetch branch requests is `?v=1?basket-unique=u`. -/
theorem C18_query_at_index_zero :
    indexOf "?v=1" "?" = 0 ∧
    handleStackObject none 1000 [] { descriptor "?v=1" with unique := some "u" } =
      .ok (some (.saved { descriptor "?v=1" with
        unique := some "u", key := some "?v=1", execute := some true,
        url := some "?v=1?basket-unique=u" })) := by
  refine ⟨by decide, by decide⟩

/-! ## The expiration sweep -/

theorem readExpire_eq_some (j : Json) (x : Int) (h : j.readExpire = .ok (some x)) :
    j.expire = some x := by
  cases j with
  | obj r =>
    simp only [Json.readExpire, Except.ok.injEq] at h
    simpa [Json.expire] using h
  | null => simp [Json.readExpire] at h
  | bool b => simp [Json.readExpire] at h
  | num n => simp [Json.readExpire] at h
  | str t => simp [Json.readExpire] at h

/-- An item that is foreign to the cache, or holds an entry that expires after `now`,
survives every step of the loop of `clear(true)`. -/
theorem clearLoop_expired_keeps (now : Int) (item : String) (v : Stored)
    (hkeep : indexOf item storagePrefix ≠ 0 ∨
      ∃ j x, v = Stored.json j ∧ j.expire = some x ∧ x > now)
    (items : List String) (cur : Storage) (hv : getItem cur item = some v) :
    getItem (clearLoop true now items cur).1 item = some v := by
  induction items generalizing cur with
  | nil => exact hv
  | cons it rest ih =>
    unfold clearLoop
    simp only
    split
    · simp only [Bool.not_true, Bool.false_eq_true, if_false]
      split
      · exact hv
      · rename_i x hread
        split
        · rename_i hle
          apply ih
          have hne : item ≠ storagePrefix ++ jsStr (split it storagePrefix)[1]? := by
            intro hc
            rcases hkeep with hf | ⟨j, y, hj, hy, hgt⟩
            · exact hf (hc ▸ indexOf_storagePrefix_append _)
            · have hg : get cur (jsStr (split it storagePrefix)[1]?) = j := by
                simp [get, ← hc, hv, hj]
              rw [hg] at hread
              have := readExpire_eq_some j x hread
              rw [hy] at this
              have hxy : y = x := Option.some.inj this
              omega
          simpa [remove] using (getItem_removeItem_ne cur _ item hne).trans hv
        · exact ih cur hv
      · exact ih cur hv
    · exact ih cur hv

/-- C12: precision of the expiration sweep.  An item that `localStorage` holds before
`clear(true)` is there afterwards with the same value when its key does not start with
the storage prefix, and when it holds an entry whose own `expire` is after `now`; this
also when the sweep is stopped by an exception. -/
theorem C12_clear_expired_keeps (now : Int) (s : Storage) (item : String) (v : Stored)
    (hv : getItem s item = some v)
    (hkeep : indexOf item storagePrefix ≠ 0 ∨
      ∃ j x, v = Stored.json j ∧ j.expire = some x ∧ x > now) :
    getItem (clear true now s).1 item = some v :=
  clearLoop_expired_keeps now item v hkeep (s.map Prod.fst) s hv

/-- The sweep at time `18000000010` of a store with a foreign item, an entry that expired at
`18000000005` and an entry that expires at `18000000020`: the last one stays. -/
theorem C12_witness :
    getItem (clear true 18000000010
      [("other", Stored.unparsable), ("basket-a", jsonStringify (entryAt "a" 5)),
       ("basket-b", jsonStringify (entryAt "b" 20))]).1 "basket-b" =
      some (jsonStringify (entryAt "b" 20)) :=
  C12_clear_expired_keeps 18000000010
    [("other", Stored.unparsable), ("basket-a", jsonStringify (entryAt "a" 5)),
     ("basket-b", jsonStringify (entryAt "b" 20))] "basket-b" (jsonStringify (entryAt "b" 20))
    (by decide) (Or.inr ⟨Json.obj (entryAt "b" 20), 18000000020, rfl, by decide, by decide⟩)

/-! ## The tracker of `basket.require` -/

theorem arrayIndexOf_of_not_mem {α : Type} [DecidableEq α] (x : α) (l : List α) (k : Nat)
    (h : x ∉ l) : arrayIndexOf x l k = -1 := by
  induction l generalizing k with
  | nil => rfl
  | cons y ys ih =>
    have hy : ¬ y = x := fun e => h (by simp [e])
    have hys : x ∉ ys := fun e => h (List.mem_cons_of_mem _ e)
    simp [arrayIndexOf, hy, ih _ hys]

theorem arrayIndexOf_of_mem {α : Type} [DecidableEq α] (x : α) (l : List α) (k : Nat)
    (h : x ∈ l) : arrayIndexOf x l k ≥ 0 := by
  induction l generalizing k with
  | nil => simp at h
  | cons y ys ih =>
    by_cases hy : y = x
    · simp [arrayIndexOf, hy]
    · have hys : x ∈ ys := by
        rcases List.mem_cons.1 h with e | e
        · exact absurd e.symm hy
        · exact e
      simpa [arrayIndexOf, hy] using ih (k + 1) hys

theorem arrayIndexOf_nonneg_iff {α : Type} [DecidableEq α] (x : α) (l : List α) :
    arrayIndexOf x l 0 ≥ 0 ↔ x ∈ l := by
  constructor
  · intro h
    by_contra hn
    rw [arrayIndexOf_of_not_mem x l 0 hn] at h
    omega
  · exact arrayIndexOf_of_mem x l 0

theorem arrayIndexOf_neg_iff {α : Type} [DecidableEq α] (x : α) (l : List α) :
    arrayIndexOf x l 0 < 0 ↔ x ∉ l := by
  rw [← arrayIndexOf_nonneg_iff]
  omega

/-- The value of `inBasket` after one pass of the loop of `basket.require`. -/
theorem track_cons (inBasket : List (Option String)) (a : Resource) (rest : List Resource) :
    (track inBasket (a :: rest)).2 =
      (track (if a.execute ≠ some false ∧ ¬ (a.once = true ∧ a.url ∈ inBasket) ∧
          a.url ∉ inBasket then inBasket ++ [a.url] else inBasket) rest).2 := by
  by_cases hin : a.url ∈ inBasket
  · have h1 : arrayIndexOf a.url inBasket 0 ≥ 0 := (arrayIndexOf_nonneg_iff _ _).2 hin
    have h2 : ¬ arrayIndexOf a.url inBasket 0 < 0 := by omega
    by_cases ho : a.once = true
    · simp [track, hin, ho, h1]
    · simp [track, hin, ho, h2]
  · have h2 : arrayIndexOf a.url inBasket 0 < 0 := (arrayIndexOf_neg_iff _ _).2 hin
    have h1 : ¬ arrayIndexOf a.url inBasket 0 ≥ 0 := by omega
    by_cases hx : a.execute = some false
    · simp [track, hin, hx, h1]
    · have hx2 : (a.execute != some false) = true := by simpa using hx
      simp [track, hin, hx, hx2, h1, h2]

theorem track_nodup (args : List Resource) (inBasket : List (Option String))
    (h : inBasket.Nodup) : (track inBasket args).2.Nodup := by
  induction args generalizing inBasket with
  | nil => exact h
  | cons a rest ih =>
    rw [track_cons]
    apply ih
    split
    · rename_i hc
      rw [List.nodup_append]
      refine ⟨h, List.nodup_singleton _, ?_⟩
      intro x hx hx2
      rw [List.mem_singleton] at hx2
      exact hc.2.2 (hx2 ▸ hx)
    · exact h

theorem track_extends (args : List Resource) (inBasket : List (Option String)) :
    inBasket <+: (track inBasket args).2 := by
  induction args generalizing inBasket with
  | nil => exact List.prefix_refl _
  | cons a rest ih =>
    rw [track_cons]
    split
    · exact List.IsPrefix.trans (List.prefix_append _ _) (ih _)
    · exact ih _

theorem foldl_track_nodup (calls : List (List Resource)) (inBasket : List (Option String))
    (h : inBasket.Nodup) :
    (calls.foldl (fun inB args => (track inB args).2) inBasket).Nodup := by
  induction calls generalizing inBasket with
  | nil => exact h
  | cons c rest ih => exact ih _ (track_nodup c inBasket h)

/-- C15: the tracker `inBasket`.  After every sequence of calls of `basket.require` the list
holds no url twice; a further call only appends to it; and one pass of the loop appends
the url of the descriptor exactly when its `execute` is not `false`, it is not a `once`
descriptor whose url is in the list, and its url is not in the list, the loop going
through the descriptors one after the other. -/
theorem C15_tracker_invariant (calls : List (List Resource)) (args : List Resource)
    (a : Resource) (inBasket : List (Option String)) :
    (inBasketAfter calls).Nodup ∧
    inBasketAfter calls <+: inBasketAfter (calls ++ [args]) ∧
    (track inBasket [a]).2 =
      (if a.execute ≠ some false ∧ ¬ (a.once = true ∧ a.url ∈ inBasket) ∧ a.url ∉ inBasket
       then inBasket ++ [a.url] else inBasket) ∧
    (track inBasket (a :: args)).2 = (track (track inBasket [a]).2 args).2 := by
  have hone : (track inBasket [a]).2 =
      (if a.execute ≠ some false ∧ ¬ (a.once = true ∧ a.url ∈ inBasket) ∧ a.url ∉ inBasket
       then inBasket ++ [a.url] else inBasket) := by
    rw [track_cons]
    rfl
  refine ⟨foldl_track_nodup calls [] List.nodup_nil, ?_, hone, ?_⟩
  · unfold inBasketAfter
    rw [List.foldl_append]
    exact track_extends args _
  · rw [hone, track_cons]

/-! ## Removal -/

/-- C16: get after remove.  After `basket.remove(k)` the call `basket.get(k)` returns
`false`, the entry under every other key is what it was, and so is every item of the
store other than the one under the prefix followed by `k`.  (The method returns `this`;
the embedding gives the store it leaves.) -/
theorem C16_get_after_remove (s : Storage) (k : String) :
    get (remove s (some k)) k = Json.bool false ∧
    (∀ k2, k2 ≠ k → get (remove s (some k)) k2 = get s k2) ∧
    (∀ item, item ≠ storagePrefix ++ k → getItem (remove s (some k)) item = getItem s item) := by
  refine ⟨?_, ?_, ?_⟩
  · simp [get, remove, jsStr, getItem_removeItem_self]
  · intro k2 hne
    have h : storagePrefix ++ k2 ≠ storagePrefix ++ k :=
      fun hc => hne (storagePrefix_append_inj _ _ hc)
    simp [get, remove, jsStr, getItem_removeItem_ne _ _ _ h]
  · intro item hne
    simp [remove, jsStr, getItem_removeItem_ne _ _ _ hne]

/-! ## Termination of the eviction -/

theorem keyed_removeItem (s : Storage) (k : String) (h : Keyed s) : Keyed (removeItem s k) := by
  intro kv hkv
  exact h kv (List.mem_of_mem_filter hkv)

theorem namespacedCount_removeItem_le (s : Storage) (k : String) :
    namespacedCount (removeItem s k) ≤ namespacedCount s := by
  unfold namespacedCount removeItem
  exact List.Sublist.countP_le _ (List.filter_sublist s)

theorem namespacedCount_removeItem_lt (s : Storage) (k : String) (v : Stored)
    (hmem : (k, v) ∈ s) (hk : indexOf k storagePrefix = 0) :
    namespacedCount (removeItem s k) < namespacedCount s := by
  induction s with
  | nil => simp at hmem
  | cons kv rest ih =>
    obtain ⟨k1, v1⟩ := kv
    by_cases h1 : k1 = k
    · subst h1
      have hle := namespacedCount_removeItem_le rest k1
      have h2 : removeItem ((k1, v1) :: rest) k1 = removeItem rest k1 := by
        simp [removeItem]
      rw [h2]
      have h3 : namespacedCount ((k1, v1) :: rest) = namespacedCount rest + 1 := by
        simp [namespacedCount, hk]
      omega
    · have hin : (k, v) ∈ rest := by
        rcases List.mem_cons.1 hmem with e | e
        · exact absurd (congrArg Prod.fst e).symm h1
        · exact e
      have h2 : removeItem ((k1, v1) :: rest) k = (k1, v1) :: removeItem rest k := by
        simp [removeItem, h1]
      rw [h2]
      have := ih hin
      by_cases hp : indexOf k1 storagePrefix = 0
      · simp only [namespacedCount, List.countP_cons, hp, decide_True, if_true] at this ⊢
        omega
      · simp only [namespacedCount, List.countP_cons, hp, decide_False] at this ⊢
        simpa using this

/-- The run of `addLocalStorage` on a store whose entries are stored under their own keys:
with `n` bounding the number of entries, every fuel above `n` gives the same result; the
function returns `true` with the new entry stored, or returns `undefined` when no entry
is left or when the store raised an exception that is not a quota exception. -/
theorem addLocalStorage_total (cap : Capacity) (key : String) (storeObj : Resource) :
    ∀ (n : Nat) (s : Storage), Keyed s → namespacedCount s ≤ n →
      ∃ r s2, (∀ fuel, n < fuel →
          addLocalStorage cap fuel s key storeObj = some (.ok r, s2)) ∧
        (r = true → getItem s2 (storagePrefix ++ key) = some (jsonStringify storeObj)) ∧
        (r = false → namespacedCount s2 = 0 ∨
          ∃ e, cap s2 (storagePrefix ++ key) (jsonStringify storeObj) = some e ∧
            ¬ indexOf (toUpperCase e.name) "QUOTA" ≥ 0) := by
  intro n
  induction n with
  | zero =>
    intro s hkeyed hcount
    have hzero : namespacedCount s = 0 := by omega
    cases hcap : cap s (storagePrefix ++ key) (jsonStringify storeObj) with
    | none =>
      refine ⟨true, writeItem s (storagePrefix ++ key) (jsonStringify storeObj), ?_,
        fun _ => getItem_writeItem_self _ _ _, fun h => by cases h⟩
      intro fuel hf
      obtain ⟨f, rfl⟩ : ∃ f, fuel = f + 1 := ⟨fuel - 1, by omega⟩
      simp [addLocalStorage, setItem, hcap]
    | some e =>
      obtain ⟨ps, hscan, hps⟩ := scanEntries_ok s (fun kv hkv hk => by
        obtain ⟨e, _, he, _⟩ := hkeyed kv hkv hk
        exact ⟨_, he⟩)
      have hnil : ps = [] := by
        cases ps with
        | nil => rfl
        | cons p tl =>
          obtain ⟨k, hk, hin⟩ := (hps p).1 (List.mem_cons_self _ _)
          have := namespacedCount_removeItem_lt s k _ hin hk
          omega
      subst hnil
      refine ⟨false, s, ?_, (fun h => by cases h), ?_⟩
      · intro fuel hf
        obtain ⟨f, rfl⟩ : ∃ f, fuel = f + 1 := ⟨fuel - 1, by omega⟩
        by_cases hq : indexOf (toUpperCase e.name) "QUOTA" ≥ 0
        · simp [addLocalStorage, setItem, hcap, hq, hscan]
        · simp [addLocalStorage, setItem, hcap, hq]
      · intro _
        exact Or.inl hzero
  | succ n ih =>
    intro s hkeyed hcount
    cases hcap : cap s (storagePrefix ++ key) (jsonStringify storeObj) with
    | none =>
      refine ⟨true, writeItem s (storagePrefix ++ key) (jsonStringify storeObj), ?_,
        fun _ => getItem_writeItem_self _ _ _, fun h => by cases h⟩
      intro fuel hf
      obtain ⟨f, rfl⟩ : ∃ f, fuel = f + 1 := ⟨fuel - 1, by omega⟩
      simp [addLocalStorage, setItem, hcap]
    | some e =>
      by_cases hq : indexOf (toUpperCase e.name) "QUOTA" ≥ 0
      · obtain ⟨ps, hscan, hps⟩ := scanEntries_ok s (fun kv hkv hk => by
          obtain ⟨e, _, he, _⟩ := hkeyed kv hkv hk
          exact ⟨_, he⟩)
        cases hsorted : ps.insertionSort stampLE with
        | nil =>
          have hperm := List.perm_insertionSort stampLE ps
          rw [hsorted] at hperm
          have hnil : ps = [] := List.Perm.eq_nil hperm.symm
          subst hnil
          have hzero : namespacedCount s = 0 := by
            unfold namespacedCount
            rw [List.countP_eq_zero]
            intro kv hkv hk
            have hk2 : indexOf kv.1 storagePrefix = 0 := by simpa using hk
            obtain ⟨e2, _, he2, _⟩ := hkeyed kv hkv hk2
            have : Json.obj e2 ∈ ([] : List Json) :=
              (hps _).2 ⟨kv.1, hk2, by rw [← he2]; exact hkv⟩
            simp at this
          refine ⟨false, s, ?_, (fun h => by cases h), fun _ => Or.inl hzero⟩
          intro fuel hf
          obtain ⟨f, rfl⟩ : ∃ f, fuel = f + 1 := ⟨fuel - 1, by omega⟩
          simp [addLocalStorage, setItem, hcap, hq, hscan]
        | cons first tl =>
          have hperm := List.perm_insertionSort stampLE ps
          have hfirst : first ∈ ps := by
            rw [← hperm.mem_iff, hsorted]
            exact List.mem_cons_self _ _
          have hne : ps ≠ [] := List.ne_nil_of_mem hfirst
          have hlen : ps.length ≠ 0 := fun hc => hne (List.length_eq_zero.1 hc)
          obtain ⟨k, hk, hin⟩ := (hps first).1 hfirst
          obtain ⟨e2, kk, he2, hkey, hkk⟩ := hkeyed _ hin hk
          simp only at he2 hkk
          have hfe : first = Json.obj e2 := Stored.json.inj he2
          have hnonull : ps.any (fun x => x = Json.null) = false := by
            rw [List.any_eq_false]
            intro p hp
            obtain ⟨k3, hk3, hin3⟩ := (hps p).1 hp
            obtain ⟨e3, _, he3, _⟩ := hkeyed _ hin3 hk3
            simp only at he3
            have : p = Json.obj e3 := Stored.json.inj he3
            simp [this]
          have hsortBy : sortByStamp ps = .ok (first :: tl) := by
            simp [sortByStamp, hnonull, hsorted]
          have hfk : first.key = .ok (some kk) := by simp [hfe, Json.key, hkey]
          have hlt := namespacedCount_removeItem_lt s k _ hin hk
          obtain ⟨r, s2, hrun, hr1, hr2⟩ := ih (removeItem s k) (keyed_removeItem s k hkeyed)
            (by omega)
          refine ⟨r, s2, ?_, hr1, hr2⟩
          intro fuel hf
          obtain ⟨f, rfl⟩ : ∃ f, fuel = f + 1 := ⟨fuel - 1, by omega⟩
          have hrec := hrun f (by omega)
          rw [hkk] at hrec
          simp only [addLocalStorage, setItem, hcap, hq, hscan, hlen, hsortBy, hfk, remove,
            jsStr, ne_eq, not_false_eq_true, if_true, hrec]
      · refine ⟨false, s, ?_, (fun h => by cases h), fun _ => Or.inr ⟨e, hcap, hq⟩⟩
        intro fuel hf
        obtain ⟨f, rfl⟩ : ∃ f, fuel = f + 1 := ⟨fuel - 1, by omega⟩
        simp [addLocalStorage, setItem, hcap, hq]

theorem removeItem_of_not_mem_keys (s : Storage) (k : String) (h : k ∉ s.map Prod.fst) :
    removeItem s k = s := by
  unfold removeItem
  rw [List.filter_eq_self]
  intro kv hkv
  have : kv.1 ≠ k := fun e => h (e ▸ List.mem_map_of_mem Prod.fst hkv)
  simpa using this

theorem length_removeItem_of_nodup (s : Storage) (k : String) (v : Stored)
    (hnodup : (s.map Prod.fst).Nodup) (hmem : (k, v) ∈ s) :
    (removeItem s k).length + 1 = s.length := by
  induction s with
  | nil => simp at hmem
  | cons kv rest ih =>
    obtain ⟨k1, v1⟩ := kv
    simp only [List.map_cons, List.nodup_cons] at hnodup
    by_cases h1 : k1 = k
    · subst h1
      have h2 : removeItem ((k1, v1) :: rest) k1 = removeItem rest k1 := by
        simp [removeItem]
      rw [h2, removeItem_of_not_mem_keys rest k1 hnodup.1]
      rfl
    · have hin : (k, v) ∈ rest := by
        rcases List.mem_cons.1 hmem with e | e
        · exact absurd (congrArg Prod.fst e).symm h1
        · exact e
      have h2 : removeItem ((k1, v1) :: rest) k = (k1, v1) :: removeItem rest k := by
        simp [removeItem, h1]
      rw [h2]
      simp only [List.length_cons]
      have := ih hnodup.2 hin
      omega

theorem keyed_twoEntries : Keyed twoEntries := by
  intro kv hkv hk
  simp only [twoEntries, List.mem_cons, List.mem_singleton, List.mem_nil_iff, or_false] at hkv
  rcases hkv with rfl | rfl | rfl
  · exact ⟨entryAt "a" 5, "a", rfl, rfl, rfl⟩
  · exact absurd hk (by decide)
  · exact ⟨entryAt "b" 3, "b", rfl, rfl, rfl⟩

theorem capacityOf_quota (n : Nat) (s : Storage) (k : String) (v : Stored) (e : JSError)
    (h : capacityOf n s k v = some e) : indexOf (toUpperCase e.name) "QUOTA" ≥ 0 := by
  unfold capacityOf at h
  split at h
  · cases h
  · cases h
    decide

/-- C17: the silent no-op of `addLocalStorage`.  On a store whose entries are each stored
under the prefix followed by their own key, and whose only exceptions on the write are
quota exceptions, `addLocalStorage` (given fuel above the number of entries) returns: it
returns `true` and `basket.get(key)` is the new entry, or it returns `undefined` and no
item under the storage prefix is left in the store. -/
theorem C17_noop_only_when_nothing_left (cap : Capacity) (s : Storage) (key : String)
    (storeObj : Resource) (fuel : Nat) (hkeyed : Keyed s) (hfuel : namespacedCount s < fuel)
    (hquota : ∀ s2 e, cap s2 (storagePrefix ++ key) (jsonStringify storeObj) = some e →
      indexOf (toUpperCase e.name) "QUOTA" ≥ 0) :
    ∃ r s2, addLocalStorage cap fuel s key storeObj = some (.ok r, s2) ∧
      (r = true → get s2 key = Json.obj storeObj) ∧
      (r = false → ∀ kv ∈ s2, indexOf kv.1 storagePrefix ≠ 0) := by
  obtain ⟨r, s2, hrun, htrue, hfalse⟩ :=
    addLocalStorage_total cap key storeObj (namespacedCount s) s hkeyed (le_refl _)
  refine ⟨r, s2, hrun fuel hfuel, ?_, ?_⟩
  · intro hr
    simp [get, htrue hr, jsonStringify]
  · intro hr kv hkv hk
    rcases hfalse hr with hzero | ⟨e, he, hne⟩
    · unfold namespacedCount at hzero
      rw [List.countP_eq_zero] at hzero
      exact hzero kv hkv (by simpa using hk)
    · exact hne (hquota s2 e he)

/-- The write of an entry into a store that takes no item at all: both entries of the
cache are evicted and the write is given up. -/
theorem C17_witness :
    ∃ r s2, addLocalStorage (capacityOf 0) 3 twoEntries "c" (entryAt "c" 9) = some (.ok r, s2) ∧
      (r = true → get s2 "c" = Json.obj (entryAt "c" 9)) ∧
      (r = false → ∀ kv ∈ s2, indexOf kv.1 storagePrefix ≠ 0) :=
  C17_noop_only_when_nothing_left (capacityOf 0) twoEntries "c" (entryAt "c" 9) 3
    keyed_twoEntries (by decide) (fun s2 e h => capacityOf_quota 0 s2 _ _ e h)

/-- C20: the retry of `addLocalStorage` terminates.  On a store whose `n` entries of the
cache are each stored under the prefix followed by their own key, and for every behaviour
of the store on writes, `addLocalStorage` returns within `n + 1` calls of itself, that is
after at most `n` evictions: every fuel above `n` gives one and the same result.  Each
eviction removes one entry: in a store without repeated keys the removal of a stored key
shortens the store by exactly one item. -/
theorem C20_eviction_terminates (cap : Capacity) (s : Storage) (key : String)
    (storeObj : Resource) (hkeyed : Keyed s) :
    (∃ r s2, ∀ fuel, namespacedCount s < fuel →
      addLocalStorage cap fuel s key storeObj = some (.ok r, s2)) ∧
    (∀ k v, (s.map Prod.fst).Nodup → (storagePrefix ++ k, v) ∈ s →
      (remove s (some k)).length + 1 = s.length) := by
  constructor
  · obtain ⟨r, s2, hrun, _, _⟩ :=
      addLocalStorage_total cap key storeObj (namespacedCount s) s hkeyed (le_refl _)
    exact ⟨r, s2, hrun⟩
  · intro k v hnodup hin
    exact length_removeItem_of_nodup s _ v hnodup hin

/-- The write of an entry into a store that takes no item at all, with fuel 3 for the two
entries of the cache. -/
theorem C20_witness :
    ∃ r s2, addLocalStorage (capacityOf 0) 3 twoEntries "c" (entryAt "c" 9) =
      some (.ok r, s2) :=
  match (C20_eviction_terminates (capacityOf 0) twoEntries "c" (entryAt "c" 9)
    keyed_twoEntries).1 with
  | ⟨r, s2, h⟩ => ⟨r, s2, h 3 (by decide)⟩

/-! ## The default expiration -/

theorem truncate_intCast (h : Int) : truncate (h : ℚ) = h := by
  unfold truncate
  split <;> simp

theorem roundDouble_of_safe (i : Int) (h : Safe i) : roundDouble i = i := by
  unfold roundDouble
  rw [if_pos (show i.natAbs < 2 ^ 53 from h)]

theorem wrapStoreData_stamp (d now : Int) (obj : Resource) (data : FetchResult) :
    (wrapStoreData d now obj data).stamp = some now := rfl

/-- Where the products and the sum are below `2^53` in magnitude, the stamp of expiry is
the exact sum. -/
theorem wrapStoreData_expire_exact (d now : Int) (obj : Resource) (data : FetchResult)
    (hprod : Safe (hoursOf d obj * 3600000)) (hsum : Safe (now + hoursOf d obj * 3600000)) :
    (wrapStoreData d now obj data).expire = some (now + hoursOf d obj * 3600000) := by
  have h1 : Safe (hoursOf d obj * 60) := by
    unfold Safe at *
    omega
  have h2 : Safe (hoursOf d obj * 60 * 60) := by
    unfold Safe at *
    omega
  have h3 : Safe (hoursOf d obj * 60 * 60 * 1000) := by
    unfold Safe at *
    omega
  have h4 : Safe (now + hoursOf d obj * 60 * 60 * 1000) := by
    unfold Safe at *
    omega
  simp only [wrapStoreData, jsAdd, jsMul]
  rw [roundDouble_of_safe _ h1, roundDouble_of_safe _ h2, roundDouble_of_safe _ h3,
    roundDouble_of_safe _ h4]
  congr 1
  ring

theorem hoursOf_of_falsy (d : Int) (obj : Resource) (h : truthyNum obj.expire = false) :
    hoursOf d obj = d := by
  simp [hoursOf, h]

theorem hoursOf_of_hours (d hours : Int) (obj : Resource) (h : obj.expire = some hours)
    (h0 : hours ≠ 0) : hoursOf d obj = hours := by
  simp [hoursOf, h, truthyNum, h0]

/-- C5, as stated, fails: the integer `10^21` is a double, which JavaScript prints as
`1e+21`; on it `setDefaultExpiration` returns `true`, but `parseInt` reads the first digit
and the default expiration becomes 1, not `10^21`. -/
theorem C5_counterexample :
    setDefaultExpiration (.exponential false 1) 5000 = (true, 1) ∧
    getDefaultExpiration (setDefaultExpiration (.exponential false 1) 5000).2 ≠ 10 ^ 21 := by
  refine ⟨by decide, by decide⟩

/-- C5, amended: on an integer `h` of magnitude below `10^21`, `setDefaultExpiration`
returns `false` and leaves the default expiration as it was when `h ≤ 0`; when `h ≥ 1`,
`h` being a double, it returns `true`, the default expiration becomes `h`, and an entry
wrapped afterwards from a descriptor without `expire` has `stamp = now` and
`expire = now + h * 3,600,000`, provided `now`, `h * 3,600,000` and their sum are below
`2^53` in magnitude, where the arithmetic on doubles is exact.  An integer at or below
`-10^21`, printed in exponent notation, is rejected as well. -/
theorem C5_setDefaultExpiration_integer (h d : Int) :
    (h ≤ 0 → -(10 ^ 21) < h →
      (setDefaultExpiration (.positional h) d).1 = false ∧
      getDefaultExpiration (setDefaultExpiration (.positional h) d).2 = d) ∧
    (∀ lead, setDefaultExpiration (.exponential true lead) d = (false, d)) ∧
    (1 ≤ h → h < 10 ^ 21 → IsDouble h →
      (setDefaultExpiration (.positional h) d).1 = true ∧
      getDefaultExpiration (setDefaultExpiration (.positional h) d).2 = h ∧
      ∀ (now : Int) (obj : Resource) (data : FetchResult), obj.expire = none →
        Safe now → Safe (h * 3600000) → Safe (now + h * 3600000) →
        (wrapStoreData (getDefaultExpiration (setDefaultExpiration (.positional h) d).2)
          now obj data).stamp = some now ∧
        (wrapStoreData (getDefaultExpiration (setDefaultExpiration (.positional h) d).2)
          now obj data).expire = some (now + h * 3600000)) := by
  have hp : parseInt (.positional h) = some h := by simp [parseInt, truncate_intCast]
  refine ⟨?_, ?_, ?_⟩
  · intro hle _
    have : ¬ h ≥ 1 := by omega
    simp [setDefaultExpiration, hp, this, getDefaultExpiration]
  · intro lead
    have : ¬ (-(lead : Int)) ≥ 1 := by omega
    simp [setDefaultExpiration, parseInt, this]
  · intro hge _ _
    have hs : setDefaultExpiration (.positional h) d = (true, h) := by
      simp [setDefaultExpiration, hp, hge]
    refine ⟨by rw [hs], by rw [hs]; rfl, ?_⟩
    intro now obj data hnone _ hprod hsum
    rw [hs]
    have hh : hoursOf h obj = h := hoursOf_of_falsy h obj (by simp [hnone, truthyNum])
    refine ⟨rfl, ?_⟩
    have := wrapStoreData_expire_exact h now obj data (by rw [hh]; exact hprod)
      (by rw [hh]; exact hsum)
    rw [hh] at this
    exact this

/-- The calls `setDefaultExpiration(0)` and `setDefaultExpiration(10)` from the default of
5000 hours, and an entry wrapped at time 1000 after the second. -/
theorem C5_witness :
    ((setDefaultExpiration (.positional ((0 : Int) : ℚ)) 5000).1 = false ∧
      getDefaultExpiration (setDefaultExpiration (.positional ((0 : Int) : ℚ)) 5000).2 = 5000) ∧
    ((setDefaultExpiration (.positional ((10 : Int) : ℚ)) 5000).1 = true ∧
      getDefaultExpiration (setDefaultExpiration (.positional ((10 : Int) : ℚ)) 5000).2 = 10 ∧
      (wrapStoreData (getDefaultExpiration
          (setDefaultExpiration (.positional ((10 : Int) : ℚ)) 5000).2)
        1000 (descriptor "x.js") ⟨"code", none⟩).expire = some (1000 + 10 * 3600000)) :=
  have hd : IsDouble ((10 : Int) : ℚ) := ⟨10, 0, by decide, by decide, by decide, by norm_num⟩
  ⟨(C5_setDefaultExpiration_integer 0 5000).1 (by decide) (by decide),
   ((C5_setDefaultExpiration_integer 10 5000).2.2 (by decide) (by decide) hd).1,
   ((C5_setDefaultExpiration_integer 10 5000).2.2 (by decide) (by decide) hd).2.1,
   ((((C5_setDefaultExpiration_integer 10 5000).2.2 (by decide) (by decide) hd).2.2 1000
      (descriptor "x.js") ⟨"code", none⟩ rfl (by decide) (by decide) (by decide))).2⟩

/-- C6, as stated, fails: on `2.5`, which is not an integer, `setDefaultExpiration`
returns `true` and changes the default expiration from 5000 to 2. -/
theorem C6_counterexample :
    setDefaultExpiration (.positional (5 / 2)) 5000 = (true, 2) ∧
    ¬ ((setDefaultExpiration (.positional (5 / 2)) 5000).1 = false ∧
       (setDefaultExpiration (.positional (5 / 2)) 5000).2 = 5000) := by
  have h : setDefaultExpiration (.positional (5 / 2)) 5000 = (true, 2) := by
    have ht : truncate (5 / 2) = 2 := by
      unfold truncate
      rw [if_pos (by norm_num)]
      rw [Int.floor_eq_iff]
      norm_num
    simp [setDefaultExpiration, parseInt, ht]
  refine ⟨h, ?_⟩
  rw [h]
  simp

theorem truncate_lt_one (q : ℚ) (h : q < 1) : truncate q < 1 := by
  unfold truncate
  split
  · rw [Int.floor_lt]
    simpa using h
  · rename_i hneg
    have hq : q ≤ 0 := le_of_lt (not_le.1 hneg)
    have : ⌈q⌉ ≤ 0 := by
      rw [Int.ceil_le]
      simpa using hq
    omega

theorem one_le_truncate (q : ℚ) (h : 1 ≤ q) : truncate q = ⌊q⌋ ∧ 1 ≤ ⌊q⌋ := by
  unfold truncate
  rw [if_pos (le_trans zero_le_one h)]
  refine ⟨rfl, ?_⟩
  rw [Int.le_floor]
  simpa using h

/-- C6, amended: `setDefaultExpiration` returns `false` and leaves the default expiration
as it was on every number (a double) below 1 that is printed in positional notation (zero,
or of magnitude from `10^-6` up to `10^21`), on every negative number printed in exponent
notation, on `NaN` and on the infinities.  On a number from 1 up to `10^21`, integer or
not, it returns `true` and the default expiration becomes the integer part of the number;
on a positive number printed in exponent notation (below `10^-6`, or `10^21` and more) it
returns `true` and the default expiration becomes the first digit of the printed
number. -/
theorem C6_setDefaultExpiration_number (hours : JSNumber) (d : Int) :
    ((∀ q, hours = .positional q → IsDouble q ∧ PositionalRange q ∧ q < 1) →
      (∀ negative lead, hours = .exponential negative lead → negative = true) →
      setDefaultExpiration hours d = (false, d)) ∧
    (∀ q, hours = .positional q → IsDouble q → 1 ≤ q → q < 10 ^ 21 →
      setDefaultExpiration hours d = (true, ⌊q⌋) ∧ 1 ≤ ⌊q⌋) ∧
    (∀ lead, hours = .exponential false lead → 1 ≤ lead →
      setDefaultExpiration hours d = (true, (lead : Int))) := by
  refine ⟨?_, ?_, ?_⟩
  · intro hlow hneg
    cases hours with
    | positional q =>
      have := truncate_lt_one q (hlow q rfl).2.2
      have hn : ¬ truncate q ≥ 1 := by omega
      simp [setDefaultExpiration, parseInt, hn]
    | exponential negative lead =>
      have hn := hneg negative lead rfl
      subst hn
      have : ¬ (-(lead : Int)) ≥ 1 := by omega
      simp [setDefaultExpiration, parseInt, this]
    | nan => rfl
    | posInf => rfl
    | negInf => rfl
  · intro q hq _ hge _
    subst hq
    obtain ⟨ht, h1⟩ := one_le_truncate q hge
    have : truncate q ≥ 1 := by rw [ht]; exact h1
    simp [setDefaultExpiration, parseInt, this, ht, h1]
  · intro lead hq hlead
    subst hq
    have : (lead : Int) ≥ 1 := by omega
    simp [setDefaultExpiration, parseInt, this]

/-- The calls `setDefaultExpiration(0.5)`, `setDefaultExpiration(NaN)` and
`setDefaultExpiration(5e-7)`. -/
theorem C6_witness :
    setDefaultExpiration (.positional (1 / 2)) 5000 = (false, 5000) ∧
    setDefaultExpiration .nan 5000 = (false, 5000) ∧
    setDefaultExpiration (.exponential false 5) 5000 = (true, 5) :=
  ⟨(C6_setDefaultExpiration_number (.positional (1 / 2)) 5000).1
      (by
        intro q hq
        cases hq
        refine ⟨⟨1, -1, by decide, by decide, by decide, by norm_num⟩, Or.inr ⟨?_, ?_⟩, ?_⟩
        · rw [abs_of_pos (by norm_num)]
          norm_num
        · rw [abs_of_pos (by norm_num)]
          norm_num
        · norm_num)
      (by
        intro negative lead hq
        cases hq),
   (C6_setDefaultExpiration_number .nan 5000).1
      (by
        intro q hq
        cases hq)
      (by
        intro negative lead hq
        cases hq),
   (C6_setDefaultExpiration_number (.exponential false 5) 5000).2.2 5 rfl (by decide)⟩

/-! ## Expiration arithmetic -/

/-- C9, as stated, fails at `expire: 0`: the entry wrapped at time 1000 under the default
of 5000 hours expires at `1000 + 5000 * 3,600,000`, not at `1000 + 0 * 3,600,000`. -/
theorem C9_counterexample :
    (wrapStoreData 5000 1000 { descriptor "x.js" with expire := some 0 }
        ⟨"code", none⟩).stamp = some 1000 ∧
    (wrapStoreData 5000 1000 { descriptor "x.js" with expire := some 0 }
        ⟨"code", none⟩).expire = some (1000 + 5000 * 3600000) ∧
    (wrapStoreData 5000 1000 { descriptor "x.js" with expire := some 0 }
        ⟨"code", none⟩).expire ≠ some (1000 + 0 * 3600000) := by
  refine ⟨by decide, by decide, by decide⟩

/-- C9, amended: the entry that `wrapStoreData` produces at time `now` has `stamp = now`
and, `now`, `h * 3,600,000` and `now + h * 3,600,000` being below `2^53` in magnitude
(where the arithmetic on doubles is exact), `expire = stamp + h * 3,600,000`, where `h` is
the `expire` of the descriptor when that is an integer other than 0, and the current
default expiration when `expire` is absent or 0. -/
theorem C9_expiration_arithmetic (d now : Int) (obj : Resource) (data : FetchResult)
    (_hnow : Safe now) :
    (wrapStoreData d now obj data).stamp = some now ∧
    (∀ h, obj.expire = some h → h ≠ 0 → Safe (h * 3600000) → Safe (now + h * 3600000) →
      (wrapStoreData d now obj data).expire = some (now + h * 3600000)) ∧
    (obj.expire = none ∨ obj.expire = some 0 →
      Safe (d * 3600000) → Safe (now + d * 3600000) →
      (wrapStoreData d now obj data).expire = some (now + d * 3600000)) := by
  refine ⟨rfl, ?_, ?_⟩
  · intro h hh h0 hprod hsum
    have hx : hoursOf d obj = h := hoursOf_of_hours d h obj hh h0
    have := wrapStoreData_expire_exact d now obj data (by rw [hx]; exact hprod)
      (by rw [hx]; exact hsum)
    rw [hx] at this
    exact this
  · intro hcase hprod hsum
    have hx : hoursOf d obj = d :=
      hoursOf_of_falsy d obj (by rcases hcase with h | h <;> simp [h, truthyNum])
    have := wrapStoreData_expire_exact d now obj data (by rw [hx]; exact hprod)
      (by rw [hx]; exact hsum)
    rw [hx] at this
    exact this

/-- The entries wrapped at time 1000 from `expire: 2` and from no `expire`, under the
default of 5000 hours. -/
theorem C9_witness :
    (wrapStoreData 5000 1000 { descriptor "x.js" with expire := some 2 }
        ⟨"code", none⟩).expire = some (1000 + 2 * 3600000) ∧
    (wrapStoreData 5000 1000 (descriptor "x.js") ⟨"code", none⟩).expire =
      some (1000 + 5000 * 3600000) :=
  ⟨(C9_expiration_arithmetic 5000 1000 { descriptor "x.js" with expire := some 2 }
      ⟨"code", none⟩ (by decide)).2.1 2 rfl (by decide) (by decide) (by decide),
   (C9_expiration_arithmetic 5000 1000 (descriptor "x.js") ⟨"code", none⟩ (by decide)).2.2
      (Or.inl rfl) (by decide) (by decide)⟩

theorem setDefaultExpiration_ge_one (hours : JSNumber) (d : Int) (hd : 1 ≤ d) :
    1 ≤ (setDefaultExpiration hours d).2 := by
  unfold setDefaultExpiration
  cases parseInt hours with
  | none => exact hd
  | some i =>
    by_cases hi : i ≥ 1
    · simp [hi]
    · simpa [hi] using hd

theorem foldl_setDefaultExpiration_ge_one (calls : List JSNumber) (d : Int) (hd : 1 ≤ d) :
    1 ≤ calls.foldl (fun d hours => (setDefaultExpiration hours d).2) d := by
  induction calls generalizing d with
  | nil => exact hd
  | cons c rest ih => exact ih _ (setDefaultExpiration_ge_one c d hd)

theorem defaultAfter_ge_one (calls : List JSNumber) : 1 ≤ defaultAfter calls :=
  foldl_setDefaultExpiration_ge_one calls defaultExpiration (by decide)

/-- The hours before expiry are at least 1 when the `expire` of the descriptor is not
negative and the default expiration is at least 1. -/
theorem one_le_hoursOf (d : Int) (obj : Resource) (hd : 1 ≤ d)
    (hnonneg : ∀ h, obj.expire = some h → 0 ≤ h) : 1 ≤ hoursOf d obj := by
  unfold hoursOf
  cases hx : obj.expire with
  | none => simpa [truthyNum] using hd
  | some h =>
    have h0 := hnonneg h hx
    by_cases hz : h = 0
    · simpa [truthyNum, hz] using hd
    · have : 1 ≤ h := by omega
      simpa [truthyNum, hz] using this

/-- C10, as stated, fails at a negative `expire`: with `expire: -1` the entry wrapped at
time 1000 has `stamp = 1000` and `expire = 1000 - 3,600,000`, which is before its
stamp. -/
theorem C10_counterexample :
    (wrapStoreData (defaultAfter []) 1000 { descriptor "x.js" with expire := some (-1) }
        ⟨"code", none⟩).stamp = some 1000 ∧
    (wrapStoreData (defaultAfter []) 1000 { descriptor "x.js" with expire := some (-1) }
        ⟨"code", none⟩).expire = some (-3599000) ∧
    ∀ e, (wrapStoreData (defaultAfter []) 1000 { descriptor "x.js" with expire := some (-1) }
        ⟨"code", none⟩).expire = some e → ¬ e > 1000 := by
  have h : (wrapStoreData (defaultAfter []) 1000 { descriptor "x.js" with expire := some (-1) }
        ⟨"code", none⟩).expire = some (-3599000) := by decide
  refine ⟨by decide, h, ?_⟩
  intro e he
  rw [h] at he
  cases he
  decide

/-- C10, amended: for every descriptor whose `expire` is absent or an integer that is not
negative, every default expiration reached from the initial one by calls of
`setDefaultExpiration`, and every time `now ≥ 0` for which `now + h * 3,600,000` is below
`2^53` (`h` being the hours `obj.expire || defaultExpiration`; the arithmetic on doubles is
then exact), the entry that `wrapStoreData` produces at time `now` has `stamp = now` and an
`expire` strictly after its stamp. -/
theorem C10_expire_after_stamp (calls : List JSNumber) (now : Int) (obj : Resource)
    (data : FetchResult) (hnonneg : ∀ h, obj.expire = some h → 0 ≤ h) (hnow : 0 ≤ now)
    (hsum : Safe (now + hoursOf (defaultAfter calls) obj * 3600000)) :
    ∃ e, (wrapStoreData (defaultAfter calls) now obj data).stamp = some now ∧
      (wrapStoreData (defaultAfter calls) now obj data).expire = some e ∧ e > now := by
  have hh := one_le_hoursOf (defaultAfter calls) obj (defaultAfter_ge_one calls) hnonneg
  have hprod : Safe (hoursOf (defaultAfter calls) obj * 3600000) := by
    unfold Safe at *
    omega
  refine ⟨_, rfl, wrapStoreData_expire_exact _ now obj data hprod hsum, ?_⟩
  omega

/-- The entry wrapped at time 1000 from a descriptor without `expire`, after the calls
`setDefaultExpiration(NaN)` and `setDefaultExpiration(-Infinity)`. -/
theorem C10_witness :
    ∃ e, (wrapStoreData (defaultAfter [.nan, .negInf]) 1000 (descriptor "x.js")
        ⟨"code", none⟩).stamp = some 1000 ∧
      (wrapStoreData (defaultAfter [.nan, .negInf]) 1000 (descriptor "x.js")
        ⟨"code", none⟩).expire = some e ∧ e > 1000 :=
  C10_expire_after_stamp [.nan, .negInf] 1000 (descriptor "x.js") ⟨"code", none⟩
    (by
      intro h hh
      cases hh)
    (by decide) (by decide)

/-! ## Execution in order -/

/-- C7, as stated, fails: `performActions` does not return when `execute` throws.  With the
initial handlers, a resource of type `__proto__` that is to be executed makes `execute`
call `Object.prototype`, which is not a function; and after `removeHandler("default")`
a resource whose type has no handler makes it call `undefined`.  In both cases
`performActions` throws a `TypeError` instead of returning the resources. -/
theorem C7_counterexample :
    performActions handlers
        [some (Json.obj { entryAt "a.js" 1 with type := some "__proto__" })] =
      ([], .error typeError) ∧
    removeHandler handlers ["default"] = some [("default", none)] ∧
    performActions [("default", none)] [some (Json.obj (entryAt "a.js" 1))] =
      ([], .error typeError) := by
  refine ⟨by decide, by decide, by decide⟩

/-- C7, amended: order preservation of `performActions`.  For every sequence of resource
objects on which `execute` returns whenever it is called (it finds a function to call for
each resource whose `execute` is `true`), `performActions` returns the sequence itself
(the same resources, in the same order), and the resources it hands to `execute` are, in
order, the ones whose `execute` is `true`. -/
theorem C7_performActions_preserves_order (hs : Handlers) (rs : List Resource)
    (hcall : ∀ r ∈ rs, r.execute = some true → ∃ h, execute hs r = .ok (h, r)) :
    ∃ calls,
      performActions hs (rs.map (fun r => some (Json.obj r))) =
        (calls, .ok (rs.map (fun r => some (Json.obj r)))) ∧
      calls.map Prod.snd = rs.filter (fun r => r.execute = some true) := by
  induction rs with
  | nil => exact ⟨[], rfl, rfl⟩
  | cons r rest ih =>
    obtain ⟨calls, hcalls, hsnd⟩ := ih (fun x hx => hcall x (List.mem_cons_of_mem _ hx))
    by_cases hx : r.execute = some true
    · obtain ⟨h, hh⟩ := hcall r (List.mem_cons_self _ _) hx
      refine ⟨(h, r) :: calls, ?_, ?_⟩
      · simp only [List.map_cons, performActions, hx, if_true, hh, hcalls]
      · simp [hx, hsnd]
    · refine ⟨calls, ?_, ?_⟩
      · simp only [List.map_cons, performActions, hx, if_false, hcalls]
      · simp [hx, hsnd]

/-- Three resources of which the first and the last are executed, with the initial
handlers. -/
theorem C7_witness :
    ∃ calls,
      performActions handlers
          ([entryAt "a" 1, { entryAt "b" 2 with execute := some false }, entryAt "c" 3].map
            (fun r => some (Json.obj r))) =
        (calls, .ok ([entryAt "a" 1, { entryAt "b" 2 with execute := some false },
          entryAt "c" 3].map (fun r => some (Json.obj r)))) ∧
      calls.map Prod.snd =
        [entryAt "a" 1, { entryAt "b" 2 with execute := some false }, entryAt "c" 3].filter
          (fun r => r.execute = some true) :=
  C7_performActions_preserves_order handlers
    [entryAt "a" 1, { entryAt "b" 2 with execute := some false }, entryAt "c" 3]
    (by
      intro r hr _
      simp only [List.mem_cons, List.mem_singleton, List.mem_nil_iff, or_false] at hr
      rcases hr with rfl | rfl | rfl
      · exact ⟨"injectScript", by decide⟩
      · exact ⟨"injectScript", by decide⟩
      · exact ⟨"injectScript", by decide⟩)

/-! ## Handler dispatch -/

theorem handlerOf_assignHandler_self (hs : Handlers) (t : String) (h : Option Handler) :
    handlerOf (assignHandler hs t h) t =
      (match h with
       | some f => Slot.function f
       | none => Slot.undefined) := by
  induction hs with
  | nil => simp [assignHandler, handlerOf]
  | cons p rest ih =>
    obtain ⟨t1, h1⟩ := p
    by_cases ht : t1 = t
    · simp [assignHandler, handlerOf, ht]
    · simp [assignHandler, handlerOf, ht, ih]

theorem handlerOf_assignHandler_ne (hs : Handlers) (t t2 : String) (h : Option Handler)
    (hne : t2 ≠ t) : handlerOf (assignHandler hs t h) t2 = handlerOf hs t2 := by
  have hne2 : ¬ t = t2 := fun e => hne e.symm
  induction hs with
  | nil => simp [assignHandler, handlerOf, hne2]
  | cons p rest ih =>
    obtain ⟨t1, h1⟩ := p
    by_cases ht : t1 = t
    · subst ht
      simp [assignHandler, handlerOf, hne2]
    · simp [assignHandler, handlerOf, ht, ih]

theorem execute_of_function (hs : Handlers) (r : Resource) (t : String) (h : Handler)
    (hr : r.type = some t) (ht : t ≠ "") (hslot : handlerOf hs t = Slot.function h) :
    execute hs r = .ok (h, r) := by
  have htr : truthyStr (some t) = true := by simp [truthyStr, ht]
  simp [execute, hr, htr, jsStr, hslot, callSlot]

theorem execute_of_undefined (hs : Handlers) (r : Resource) (d : Handler)
    (hdef : handlerOf hs "default" = Slot.function d)
    (hslot : truthyStr r.type = false ∨ handlerOf hs (jsStr r.type) = Slot.undefined) :
    execute hs r = .ok (d, r) := by
  by_cases htr : truthyStr r.type = true
  · rcases hslot with hf | hu
    · rw [hf] at htr
      cases htr
    · simp [execute, htr, hu, hdef, callSlot]
  · simp [execute, htr, hdef, callSlot]

/-- C19, as stated, fails: after `removeHandler("default")`, which the initial handlers
allow, no handler is registered under `default`, and `execute` on a resource whose type
has no handler calls `undefined`: it throws a `TypeError` and invokes no handler.  And
with the initial handlers a resource of type `constructor`, for which no handler is
registered, does not go to the default handler: `handlers["constructor"]` is the function
`Object` that `handlers` inherits from `Object.prototype`, and `execute` calls that. -/
theorem C19_counterexample :
    handlersAfter [.remove ["default"]] handlers = some [("default", none)] ∧
    execute [("default", none)] (entryAt "a.js" 1) = .error typeError ∧
    (¬ ∃ h, execute [("default", none)] (entryAt "a.js" 1) = .ok (h, entryAt "a.js" 1)) ∧
    execute handlers { entryAt "a.js" 1 with type := some "constructor" } =
      .ok ("Object.prototype.constructor", { entryAt "a.js" 1 with type := some "constructor" }) := by
  refine ⟨by decide, by decide, ?_, by decide⟩
  rintro ⟨h, hh⟩
  have h2 : execute [("default", none)] (entryAt "a.js" 1) = .error typeError := by decide
  rw [h2] at hh
  cases hh

/-- C19, amended: while a handler `d` is registered under `default`, `execute` invokes
exactly one handler on a resource whose type is absent or empty, has a registered handler,
or names no property of `handlers`, own or inherited from `Object.prototype`: the handler
registered for the type when there is one and the type is not empty, and `d` otherwise.
In particular, after `addHandler(t, h)` with `t` neither empty nor `__proto__` a resource
of type `t` goes to `h`, and after `removeHandler(t)` with `t` neither `default` nor
`__proto__` it goes to `d`. -/
theorem C19_execute_dispatch (hs : Handlers) (r : Resource) (d : Handler)
    (hdef : handlerOf hs "default" = Slot.function d) :
    (∀ t h, r.type = some t → t ≠ "" → handlerOf hs t = Slot.function h →
      execute hs r = .ok (h, r)) ∧
    ((truthyStr r.type = false ∨ handlerOf hs (jsStr r.type) = Slot.undefined) →
      execute hs r = .ok (d, r)) ∧
    (∀ t h, t ≠ "" → t ≠ "__proto__" → r.type = some t →
      ∃ hs1, addHandler hs [t] (some h) = some hs1 ∧ execute hs1 r = .ok (h, r)) ∧
    (∀ t, t ≠ "default" → t ≠ "__proto__" → r.type = some t →
      ∃ hs1, removeHandler hs [t] = some hs1 ∧ execute hs1 r = .ok (d, r)) := by
  refine ⟨?_, ?_, ?_, ?_⟩
  · intro t h hr ht hslot
    exact execute_of_function hs r t h hr ht hslot
  · intro hslot
    exact execute_of_undefined hs r d hdef hslot
  · intro t h ht hp hr
    refine ⟨assignHandler hs t (some h), by simp [addHandler, setHandler, hp], ?_⟩
    exact execute_of_function _ r t h hr ht (handlerOf_assignHandler_self hs t (some h))
  · intro t ht hp hr
    refine ⟨assignHandler hs t none, by simp [removeHandler, addHandler, setHandler, hp], ?_⟩
    apply execute_of_undefined _ r d
    · rw [handlerOf_assignHandler_ne _ _ _ _ (fun e => ht e.symm)]
      exact hdef
    · right
      rw [hr]
      exact handlerOf_assignHandler_self hs t none

/-- The dispatch with the initial handlers, after `addHandler("text/css", "injectStyle")`
and after `removeHandler("text/css")`. -/
theorem C19_witness :
    execute handlers (entryAt "a.js" 1) = .ok ("injectScript", entryAt "a.js" 1) ∧
    (∃ hs1, addHandler handlers ["text/css"] (some "injectStyle") = some hs1 ∧
      execute hs1 { entryAt "a.css" 1 with type := some "text/css" } =
        .ok ("injectStyle", { entryAt "a.css" 1 with type := some "text/css" })) ∧
    (∃ hs1, removeHandler [("default", some "injectScript"), ("text/css", some "injectStyle")]
        ["text/css"] = some hs1 ∧
      execute hs1 { entryAt "a.css" 1 with type := some "text/css" } =
        .ok ("injectScript", { entryAt "a.css" 1 with type := some "text/css" })) :=
  ⟨(C19_execute_dispatch handlers (entryAt "a.js" 1) "injectScript" (by decide)).2.1
      (Or.inr (by decide)),
   (C19_execute_dispatch handlers { entryAt "a.css" 1 with type := some "text/css" }
      "injectScript" (by decide)).2.2.1 "text/css" "injectStyle" (by decide) (by decide) rfl,
   (C19_execute_dispatch [("default", some "injectScript"), ("text/css", some "injectStyle")]
      { entryAt "a.css" 1 with type := some "text/css" } "injectScript" (by decide)).2.2.2
      "text/css" (by decide) (by decide) rfl⟩

end Basket
